import Mathlib

/-!
# SSD1306 OLED driver (`aio_oled.c`): shallow embedding and verified properties

The driver keeps process-wide state (`ucFont`, `iScreenOffset`, `ucScreen`,
`fHandle`, `bSPIMode`, `iDCPin`, `iResetPin`) and talks to the display through
the ArmbianIO library.  The embedding threads that state explicitly through
every function as a `Driver` record, together with the list of ArmbianIO calls
issued so far.  What the library returns is not under the driver's control, so
every function takes a `Transport`: the value returned by a call as a function
of the whole call history (the call itself included).

Conventions
* `int` values are `Int`; signed overflow is undefined in C and is not modelled.
  A theorem whose arguments are not confined to the display carries bounds under
  which every `int` value of the call stays in the 32-bit range (`isInt32`), where
  `Int` arithmetic and `int` arithmetic agree.
  `y >> 3` is the arithmetic shift `y >>> (3 : Nat)` (floor division by 8);
  `a & b` and `a | b` on `int` are `Int.land` and `Int.lor`.
* `unsigned char` values are `Nat`, reduced `% 256` where the C conversion
  truncates.
* `ucScreen` has 1024 bytes.  A `memcpy` that would leave it is undefined
  behaviour in C; `WriteData` returns `none` there, and so does every function
  that reaches such a write.
* `ucFont` is declared `extern` with unknown size, so it is a total map.
* A NUL-terminated `char *` text is the list of its bytes before the NUL.
-/

namespace AioOled

/-- One call into the ArmbianIO library, with the arguments the driver passed.
`aioAddGPIO` is always issued with direction `GPIO_OUT`. -/
inductive Event where
  | aioInit
  | aioShutdown
  | aioAddGPIO (iPin : Int)
  | aioWriteGPIO (iPin : Int) (iValue : Int)
  | aioOpenSPI (iChannel : Int) (iSpeed : Int)
  | aioOpenI2C (iChannel : Int) (iAddr : Int)
  | aioCloseSPI (iHandle : Int)
  | aioCloseI2C (iHandle : Int)
  | aioWriteSPI (iHandle : Int) (pData : List Nat)
  | aioWriteI2C (iHandle : Int) (ucRegister : Nat) (pData : List Nat)
  deriving DecidableEq, Repr

/-- Behaviour of the hardware library: the return value of the most recent call,
given every call issued so far (oldest first, the most recent call last). -/
abbrev Transport := List Event → Int

/-- The file-scope variables of `aio_oled.c` plus the log of library calls. -/
@[ext]
structure Driver where
  ucFont : Nat → Nat
  iScreenOffset : Int
  ucScreen : Nat → Nat
  fHandle : Int
  bSPIMode : Int
  iDCPin : Int
  iResetPin : Int
  calls : List Event

/-- The mathematical integer `v` is a value of the 32-bit type `int`. -/
def isInt32 (v : Int) : Prop := -2147483648 ≤ v ∧ v ≤ 2147483647

/-- Conversion of an `int` to `unsigned char`. -/
def toUChar (v : Int) : Nat := (v % 256).toNat

/-- The `iLen` bytes found at `&mem[off]`. -/
def readBytes (mem : Nat → Nat) (off iLen : Nat) : List Nat :=
  (List.range iLen).map (fun k => mem (off + k))

/-- Effect of `memcpy(&dst[off], src, src.length)` on the array `dst`. -/
def memcpy (dst : Nat → Nat) (off : Nat) (src : List Nat) : Nat → Nat :=
  fun a => if off ≤ a ∧ a < off + src.length then src.getD (a - off) 0 else dst a

/-- `WriteCommand(pData, iLen)`: the bytes go out as a command transfer. -/
def WriteCommand (tp : Transport) (st : Driver) (pData : List Nat) : Driver × Int :=
  if st.bSPIMode ≠ 0 then
    let c1 := st.calls ++ [Event.aioWriteGPIO st.iDCPin 0]
    let c2 := c1 ++ [Event.aioWriteSPI st.fHandle pData]
    ({ st with calls := c2 }, tp c2)
  else
    let c := st.calls ++ [Event.aioWriteI2C st.fHandle 0x00 pData]
    ({ st with calls := c }, tp c)

/-- `WriteData(pData, iLen)`: the bytes go out as a data transfer, are copied to
`ucScreen` at `iScreenOffset`, and `iScreenOffset` advances by `iLen`.
`none` when the copy would leave the 1024 bytes of `ucScreen`. -/
def WriteData (tp : Transport) (st : Driver) (pData : List Nat) : Option (Driver × Int) :=
  let c :=
    if st.bSPIMode ≠ 0 then
      (st.calls ++ [Event.aioWriteGPIO st.iDCPin 1]) ++ [Event.aioWriteSPI st.fHandle pData]
    else
      st.calls ++ [Event.aioWriteI2C st.fHandle 0x40 pData]
  if 0 ≤ st.iScreenOffset ∧ st.iScreenOffset + pData.length ≤ 1024 then
    some ({ st with
            calls := c
            ucScreen := memcpy st.ucScreen st.iScreenOffset.toNat pData
            iScreenOffset := st.iScreenOffset + pData.length }, tp c)
  else
    none

/-- `oledSetPosition(x, y)`: three one-byte commands, then the cursor is reset. -/
def oledSetPosition (tp : Transport) (st : Driver) (x y : Int) : Driver :=
  let st1 := (WriteCommand tp st [toUChar (Int.lor 0xb0 y)]).1
  let st2 := (WriteCommand tp st1 [toUChar (Int.lor 0x00 (Int.land x 0xf))]).1
  let st3 := (WriteCommand tp st2 [toUChar (Int.lor 0x10 (Int.land (x >>> (4 : Nat)) 0xf))]).1
  { st3 with iScreenOffset := (y * 128) + x }

/-- The byte `oledSetPixel` derives from the old shadow byte `ucOld`:
`uc &= ~(0x1 << k); if (ucColor) uc |= (0x1 << k);` with `k = y & 7`.  The
complement is taken on a 32-bit `int`; the result is converted back to a byte. -/
def pixelByte (ucOld k ucColor : Nat) : Nat :=
  let uc := (ucOld &&& (4294967295 - (1 <<< k))) % 256
  if ucColor ≠ 0 then (uc ||| (1 <<< k)) % 256 else uc

/-- `oledSetPixel(x, y, ucColor)`. -/
def oledSetPixel (tp : Transport) (st : Driver) (x y : Int) (ucColor : Nat) :
    Option (Driver × Int) :=
  if st.fHandle < 0 then some (st, -1)
  else
    let i : Int := ((y >>> (3 : Nat)) * 128) + x
    if i < 0 ∨ i > 1023 then some (st, -1)
    else
      let ucOld := st.ucScreen i.toNat
      let uc := pixelByte ucOld (Int.land y 7).toNat ucColor
      if uc ≠ ucOld then
        (WriteData tp (oledSetPosition tp st x (y >>> (3 : Nat))) [uc]).map (fun r => (r.1, 0))
      else some (st, 0)

/-- `oledSetContrast(ucContrast)`. -/
def oledSetContrast (tp : Transport) (st : Driver) (ucContrast : Nat) : Driver × Int :=
  if st.fHandle < 0 then (st, -1)
  else ((WriteCommand tp st [0x81, ucContrast]).1, 0)

/-- `oledShutdown()`. -/
def oledShutdown (tp : Transport) (st : Driver) : Driver :=
  if st.fHandle ≥ 0 then
    let st1 := (WriteCommand tp st [0xae]).1
    let c :=
      if st1.bSPIMode ≠ 0 then st1.calls ++ [Event.aioCloseSPI st1.fHandle]
      else st1.calls ++ [Event.aioCloseI2C st1.fHandle]
    { st1 with fHandle := -1, calls := c ++ [Event.aioShutdown] }
  else st

/-- Body of the large-font loop of `oledWriteString` for character index `i`
(`x` is already multiplied by 16). -/
def largeGlyph (tp : Transport) (x y : Int) (szMsg : List Nat) (st : Driver) (i : Nat) :
    Option Driver :=
  let s := 9728 + (szMsg.getD i 0 % 256) * 64
  (WriteData tp (oledSetPosition tp st (x + (i * 16)) y) (readBytes st.ucFont s 16)).bind
    fun r1 =>
  (WriteData tp (oledSetPosition tp r1.1 (x + (i * 16)) (y + 1))
      (readBytes st.ucFont (s + 16) 16)).bind
    fun r2 =>
  (WriteData tp (oledSetPosition tp r2.1 (x + (i * 16)) (y + 2))
      (readBytes st.ucFont (s + 32) 16)).map
    fun r3 => r3.1

/-- Body of the small-font loop of `oledWriteString` for character index `i`. -/
def smallGlyph (tp : Transport) (szMsg : List Nat) (st : Driver) (i : Nat) : Option Driver :=
  (WriteData tp st (readBytes st.ucFont ((szMsg.getD i 0 % 256) * 8) 8)).map fun r => r.1

/-- `oledWriteString(x, y, szMsg, bLarge)`. -/
def oledWriteString (tp : Transport) (st : Driver) (x y : Int) (szMsg : List Nat)
    (bLarge : Int) : Option (Driver × Int) :=
  if st.fHandle < 0 then some (st, -1)
  else
    let iLen : Int := szMsg.length
    if bLarge ≠ 0 then
      let iLen := if iLen + x > 8 then 8 - x else iLen
      if iLen < 0 then some (st, -1)
      else
        ((List.range iLen.toNat).foldlM (largeGlyph tp (x * 16) y szMsg) st).map
          fun s => (s, 0)
    else
      let st1 := oledSetPosition tp st (x * 8) y
      let iLen := if iLen + x > 16 then 16 - x else iLen
      if iLen < 0 then some (st1, -1)
      else
        ((List.range iLen.toNat).foldlM (smallGlyph tp szMsg) st1).map fun s => (s, 0)

/-- Body of the page loop of `oledFill`. -/
def fillPage (tp : Transport) (temp : List Nat) (st : Driver) (y : Nat) : Option Driver :=
  (WriteData tp (oledSetPosition tp st 0 y) temp).map fun r => r.1

/-- `oledFill(ucData)`. -/
def oledFill (tp : Transport) (st : Driver) (ucData : Nat) : Option (Driver × Int) :=
  if st.fHandle < 0 then some (st, -1)
  else
    ((List.range 8).foldlM (fillPage tp (List.replicate 128 ucData)) st).map fun s => (s, 0)

/-- Innermost loop of `RotateFont90` (8x8 case): `c` after the eight `x` steps. -/
def rotateBits (s : Nat → Nat) (ucMask : Nat) : Nat :=
  (List.range 8).foldl
    (fun c x => if s x &&& ucMask ≠ 0 then (c >>> 1) ||| 0x80 else c >>> 1) 0

/-- Innermost loop of `RotateFont90` (16x32 case): `(c, c2)` after the eight `x` steps. -/
def rotateBits2 (s : Nat → Nat) (ucMask : Nat) : Nat × Nat :=
  (List.range 8).foldl
    (fun (p : Nat × Nat) x =>
      (if s (x * 2) &&& ucMask ≠ 0 then (p.1 >>> 1) ||| 0x80 else p.1 >>> 1,
       if s (x * 2 + 1) &&& ucMask ≠ 0 then (p.2 >>> 1) ||| 0x80 else p.2 >>> 1)) (0, 0)

/-- The `y` loop of the 8x8 case for the glyph at `s`: final `(ucMask, ucTemp)`. -/
def rotateRows8 (s : Nat → Nat) (ucTemp : Nat → Nat) : Nat × (Nat → Nat) :=
  (List.range 8).foldl
    (fun (p : Nat × (Nat → Nat)) y =>
      ((p.1 <<< 1) % 256, Function.update p.2 (7 - y) (rotateBits s p.1))) (1, ucTemp)

/-- One iteration of the 8x8 glyph loop: `(ucFont, ucTemp)` after glyph `i`. -/
def rotateGlyph8 (p : (Nat → Nat) × (Nat → Nat)) (i : Nat) : (Nat → Nat) × (Nat → Nat) :=
  let ucTemp := (rotateRows8 (fun x => p.1 (i * 8 + x)) p.2).2
  (memcpy p.1 (i * 8) (readBytes ucTemp 0 8), ucTemp)

/-- The `y` loop of the 16x32 case for source `s` and destination `d = &ucTemp[dOff]`. -/
def rotateRows16 (s : Nat → Nat) (dOff : Nat) (ucTemp : Nat → Nat) : Nat × (Nat → Nat) :=
  (List.range 8).foldl
    (fun (p : Nat × (Nat → Nat)) y =>
      let cc := rotateBits2 s p.1
      ((p.1 <<< 1) % 256,
       Function.update (Function.update p.2 (dOff + (7 - y)) cc.1) (dOff + (15 - y)) cc.2))
    (1, ucTemp)

/-- One iteration of the 16x32 glyph loop: `(ucFont, ucTemp)` after glyph `i`. -/
def rotateGlyph16 (p : (Nat → Nat) × (Nat → Nat)) (i : Nat) : (Nat → Nat) × (Nat → Nat) :=
  let ucTemp := (List.range 4).foldl
    (fun t j => (rotateRows16 (fun x => p.1 (9728 + 12 + (i * 64) + (j * 16) + x)) (j * 16) t).2)
    p.2
  (memcpy p.1 (9728 + (i * 64)) (readBytes ucTemp 0 64), ucTemp)

/-- The 8x8 pass of `RotateFont90` on `(ucFont, ucTemp)`. -/
def rotate8x8 (p : (Nat → Nat) × (Nat → Nat)) : (Nat → Nat) × (Nat → Nat) :=
  (List.range 256).foldl rotateGlyph8 p

/-- The 16x32 pass of `RotateFont90` on `(ucFont, ucTemp)`. -/
def rotate16x32 (p : (Nat → Nat) × (Nat → Nat)) : (Nat → Nat) × (Nat → Nat) :=
  (List.range 128).foldl rotateGlyph16 p

/-- `RotateFont90()` as a function on the font table.  The local `ucTemp` starts
indeterminate in C; every byte copied out of it was stored earlier in the same
glyph iteration. -/
def RotateFont90 (ucFont : Nat → Nat) : Nat → Nat :=
  (rotate16x32 (rotate8x8 (ucFont, fun _ => 0))).1

/-- The `initbuf` array of `oledInit`. -/
def initbuf : List Nat :=
  [0xae, 0xa8, 0x3f, 0xd3, 0x00, 0x40, 0xa1, 0xc8,
   0xda, 0x12, 0x81, 0xff, 0xa4, 0xa6, 0xd5, 0x80, 0x8d, 0x14,
   0xaf, 0x20, 0x02]

/-- Tail of `oledInit` from `bSPIMode = bSPI` on. -/
def oledInitOpen (tp : Transport) (st : Driver) (iChannel iAddr bFlip bInvert bSPI : Int) :
    Driver × Int :=
  let c :=
    if bSPI ≠ 0 then st.calls ++ [Event.aioOpenSPI iChannel 5000000]
    else st.calls ++ [Event.aioOpenI2C iChannel iAddr]
  let st1 := { st with bSPIMode := bSPI, calls := c, fHandle := tp c }
  if st1.fHandle = -1 then (st1, 1)
  else
    let r := WriteCommand tp st1 initbuf
    let st2 := { r.1 with ucFont := RotateFont90 r.1.ucFont }
    if r.2 ≤ 0 then (st2, 1)
    else
      let st3 := if bInvert ≠ 0 then (WriteCommand tp st2 [0xa7]).1 else st2
      let st4 :=
        if bFlip ≠ 0 then (WriteCommand tp (WriteCommand tp st3 [0xa0]).1 [0xc0]).1 else st3
      (st4, 0)

/-- `oledInit(iChannel, iAddr, bFlip, bInvert, bSPI, iDC, iReset)`.  The 10 ms
`usleep` between the two reset-line writes is not a library call and leaves no
event. -/
def oledInit (tp : Transport) (st : Driver)
    (iChannel iAddr bFlip bInvert bSPI iDC iReset : Int) : Driver × Int :=
  let c0 := st.calls ++ [Event.aioInit]
  let st0 := { st with calls := c0 }
  if tp c0 = 0 then (st0, 1)
  else if bSPI ≠ 0 then
    let c1 := c0 ++ [Event.aioAddGPIO iDC]
    let st1 := { st0 with iDCPin := iDC, iResetPin := iReset, calls := c1 }
    if tp c1 ≠ 1 then (st1, 1)
    else
      let c2 := c1 ++ [Event.aioAddGPIO iReset]
      if tp c2 ≠ 1 then ({ st1 with calls := c2 }, 1)
      else
        let c3 := (c2 ++ [Event.aioWriteGPIO iReset 0]) ++ [Event.aioWriteGPIO iReset 1]
        oledInitOpen tp { st1 with calls := c3 } iChannel iAddr bFlip bInvert bSPI
  else
    oledInitOpen tp st0 iChannel iAddr bFlip bInvert bSPI

/-- The variables as the C runtime initialises them (`fHandle = -1`, the rest
zero), for a given font table and before any library call. -/
def initialDriver (ucFont : Nat → Nat) : Driver :=
  { ucFont := ucFont, iScreenOffset := 0, ucScreen := fun _ => 0, fHandle := -1,
    bSPIMode := 0, iDCPin := 0, iResetPin := 0, calls := [] }

/-- The library calls by which `WriteCommand` sends `pData` as a command
transfer in the driver's current transport mode. -/
def cmdCalls (st : Driver) (pData : List Nat) : List Event :=
  if st.bSPIMode ≠ 0 then
    [Event.aioWriteGPIO st.iDCPin 0, Event.aioWriteSPI st.fHandle pData]
  else [Event.aioWriteI2C st.fHandle 0x00 pData]

/-- The library calls by which `WriteData` sends `pData` as a data transfer in
the driver's current transport mode. -/
def dataCalls (st : Driver) (pData : List Nat) : List Event :=
  if st.bSPIMode ≠ 0 then
    [Event.aioWriteGPIO st.iDCPin 1, Event.aioWriteSPI st.fHandle pData]
  else [Event.aioWriteI2C st.fHandle 0x40 pData]

/-- The three one-byte command transfers of `oledSetPosition(x, y)`. -/
def positionCalls (st : Driver) (x y : Int) : List Event :=
  cmdCalls st [toUChar (Int.lor 0xb0 y)] ++
  cmdCalls st [toUChar (Int.lor 0x00 (Int.land x 0xf))] ++
  cmdCalls st [toUChar (Int.lor 0x10 (Int.land (x >>> (4 : Nat)) 0xf))]

/-- The 8 bytes of the small glyph of character `i` of `szMsg`. -/
def glyph8 (ucFont : Nat → Nat) (szMsg : List Nat) (i : Nat) : List Nat :=
  readBytes ucFont ((szMsg.getD i 0 % 256) * 8) 8

/-- Bytes `16 * p .. 16 * p + 15` of the large glyph of character `i` of `szMsg`. -/
def glyph16 (ucFont : Nat → Nat) (szMsg : List Nat) (i p : Nat) : List Nat :=
  readBytes ucFont (9728 + (szMsg.getD i 0 % 256) * 64 + 16 * p) 16

/-- Library calls that draw small glyph `i`: one 8-byte data transfer. -/
def smallGlyphCalls (st : Driver) (szMsg : List Nat) (i : Nat) : List Event :=
  dataCalls st (glyph8 st.ucFont szMsg i)

/-- Library calls that draw large glyph `i` with its left edge at pixel column
`x + 16 * i` and its top on page `y`: three (reposition, 16-byte data transfer)
pairs on pages `y`, `y + 1`, `y + 2`. -/
def largeGlyphCalls (st : Driver) (x y : Int) (szMsg : List Nat) (i : Nat) : List Event :=
  positionCalls st (x + (i * 16)) y ++ dataCalls st (glyph16 st.ucFont szMsg i 0) ++
  (positionCalls st (x + (i * 16)) (y + 1) ++ dataCalls st (glyph16 st.ucFont szMsg i 1)) ++
  (positionCalls st (x + (i * 16)) (y + 2) ++ dataCalls st (glyph16 st.ucFont szMsg i 2))

/-- Shadow after small glyphs `0 .. n - 1` were copied contiguously from offset `base`. -/
def smallShadow (ucFont : Nat → Nat) (szMsg : List Nat) (base : Nat) (scr : Nat → Nat)
    (n : Nat) : Nat → Nat :=
  (List.range n).foldl (fun s i => memcpy s (base + 8 * i) (glyph8 ucFont szMsg i)) scr

/-- Shadow after large glyphs `0 .. n - 1` were copied, glyph `i` at offsets
`base + 16 * i`, `base + 128 + 16 * i` and `base + 256 + 16 * i`. -/
def largeShadow (ucFont : Nat → Nat) (szMsg : List Nat) (base : Nat) (scr : Nat → Nat)
    (n : Nat) : Nat → Nat :=
  (List.range n).foldl
    (fun s i =>
      memcpy (memcpy (memcpy s (base + 16 * i) (glyph16 ucFont szMsg i 0))
        (base + 128 + 16 * i) (glyph16 ucFont szMsg i 1))
        (base + 256 + 16 * i) (glyph16 ucFont szMsg i 2)) scr

/-- State after `k` iterations of the small-font loop started in `st` with the
cursor at `base`. -/
def smallLoopState (st : Driver) (szMsg : List Nat) (base k : Nat) : Driver :=
  { st with
    calls := st.calls ++ (List.range k).flatMap (smallGlyphCalls st szMsg)
    ucScreen := smallShadow st.ucFont szMsg base st.ucScreen k
    iScreenOffset := (base : Int) + 8 * k }

/-- State after `k` iterations of the large-font loop started in `st`, drawing
from pixel column `x` on pages `y`, `y + 1`, `y + 2`. -/
def largeLoopState (st : Driver) (szMsg : List Nat) (x y k : Nat) : Driver :=
  { st with
    calls := st.calls ++ (List.range k).flatMap (largeGlyphCalls st x y szMsg)
    ucScreen := largeShadow st.ucFont szMsg (y * 128 + x) st.ucScreen k
    iScreenOffset :=
      if k = 0 then st.iScreenOffset else (((y + 2) * 128 + x + 16 * k : Nat) : Int) }

/-- One step of the innermost loop of `RotateFont90`: `c >>= 1; if (bit) c |= 0x80;`. -/
def shiftIn (c : Nat) (b : Bool) : Nat :=
  if b then (c >>> 1) ||| 0x80 else c >>> 1

/-- State after the first `k` pages of the loop of `oledFill(p)` started in `st`. -/
def fillLoopState (st : Driver) (p k : Nat) : Driver :=
  { st with
    calls := st.calls ++ (List.range k).flatMap (fun page =>
      cmdCalls st [0xb0 + page] ++ cmdCalls st [0x00] ++ cmdCalls st [0x10] ++
        dataCalls st (List.replicate 128 p))
    ucScreen :=
      (List.range k).foldl (fun s page => memcpy s (page * 128) (List.replicate 128 p))
        st.ucScreen
    iScreenOffset := if k = 0 then st.iScreenOffset else ((k * 128 : Nat) : Int) }

/-- A font table whose glyph `0x48` is `01 00 00 00 00 00 00 00` and which is
zero elsewhere. -/
def unitFont : Nat → Nat := fun a => if a = 0x48 * 8 then 1 else 0

/-- A transport on which the hardware layer initialises and the I2C bus opens
(handle 3), but no device answers: every write returns -1. -/
def deadBusTransport : Transport := fun c =>
  match c.getLast? with
  | some (Event.aioWriteI2C _ _ _) => -1
  | some (Event.aioWriteSPI _ _) => -1
  | some (Event.aioOpenI2C _ _) => 3
  | some (Event.aioOpenSPI _ _) => 3
  | _ => 1

/-- What the driver itself takes as success of a library call returning `rc`:
`AIOInit` nonzero, `AIOAddGPIO` equal to 1, an open returning a handle `≥ 0`, a
write returning a positive count.  Calls without a result always succeed. -/
def callSucceeded (e : Event) (rc : Int) : Prop :=
  match e with
  | Event.aioInit => rc ≠ 0
  | Event.aioAddGPIO _ => rc = 1
  | Event.aioOpenSPI _ _ => 0 ≤ rc
  | Event.aioOpenI2C _ _ => 0 ≤ rc
  | Event.aioWriteSPI _ _ => 0 < rc
  | Event.aioWriteI2C _ _ _ => 0 < rc
  | _ => True

/-- A transport all of whose calls succeed, whatever was called before. -/
def AllSucceed (tp : Transport) : Prop :=
  ∀ (c : List Event) (e : Event), callSucceeded e (tp (c ++ [e]))

/-- Display controller as the mirror property describes it: an address
`(page, column)` and a RAM of 8 pages of 128 columns, indexed by
`page * 128 + column`; `ram a = none` while address `a` was never written. -/
structure Controller where
  page : Nat
  column : Nat
  ram : Nat → Option Nat

/-- The controller receives one command byte: `B0|page` selects the page,
`00|nibble` sets the low four bits of the column, `10|nibble` the high four bits.
Other command bytes do not move the address. -/
def ctrlCommand (c : Controller) (b : Nat) : Controller :=
  if 0xb0 ≤ b ∧ b ≤ 0xb7 then { c with page := b - 0xb0 }
  else if b ≤ 0x0f then { c with column := c.column / 16 * 16 + b }
  else if 0x10 ≤ b ∧ b ≤ 0x1f then { c with column := (b - 0x10) * 16 + c.column % 16 }
  else c

/-- The controller receives one data byte: it is stored at the current address
and the column advances by one. -/
def ctrlData (c : Controller) (b : Nat) : Controller :=
  { c with
    ram :=
      if c.page < 8 ∧ c.column < 128 then
        Function.update c.ram (c.page * 128 + c.column) (some b)
      else c.ram
    column := c.column + 1 }

/-- The controller, paired with the level of its D/C line, observes one library
call.  On the I2C bus the register byte tells commands (`0x00`) from data (`0x40`);
on the SPI bus the level of the D/C pin `iDCPin` does (0 = command). -/
def ctrlReceive (iDCPin : Int) (s : Int × Controller) (e : Event) : Int × Controller :=
  match e with
  | Event.aioWriteGPIO iPin iValue => if iPin = iDCPin then (iValue, s.2) else s
  | Event.aioWriteSPI _ pData =>
    if s.1 = 0 then (s.1, pData.foldl ctrlCommand s.2) else (s.1, pData.foldl ctrlData s.2)
  | Event.aioWriteI2C _ ucRegister pData =>
    if ucRegister = 0x00 then (s.1, pData.foldl ctrlCommand s.2)
    else if ucRegister = 0x40 then (s.1, pData.foldl ctrlData s.2)
    else s
  | _ => s

/-- The controller after observing a list of library calls, oldest first. -/
def ctrlReplay (iDCPin : Int) (s : Int × Controller) (calls : List Event) : Int × Controller :=
  calls.foldl (ctrlReceive iDCPin) s

/-- The shadow content `scr` mirrors the controller RAM: every address written at
least once holds, in the shadow, the byte last written to it, and every address
never written still holds its byte `scr0 a` from the start of the observation. -/
def Mirrors (scr0 scr : Nat → Nat) (c : Controller) : Prop :=
  ∀ a, a < 1024 → (∀ v, c.ram a = some v → scr a = v) ∧ (c.ram a = none → scr a = scr0 a)

/-- A call of one of the three drawing functions. -/
inductive DrawCall where
  | fill (ucData : Nat)
  | setPixel (x y : Int) (ucColor : Nat)
  | writeString (x y : Int) (szMsg : List Nat) (bLarge : Int)

/-- Executes one drawing call. -/
def runCall (tp : Transport) (st : Driver) : DrawCall → Option (Driver × Int)
  | DrawCall.fill ucData => oledFill tp st ucData
  | DrawCall.setPixel x y ucColor => oledSetPixel tp st x y ucColor
  | DrawCall.writeString x y szMsg bLarge => oledWriteString tp st x y szMsg bLarge

/-- Executes a sequence of drawing calls, ignoring their return values. -/
def runCalls (tp : Transport) (st : Driver) : List DrawCall → Option Driver
  | [] => some st
  | d :: ds => (runCall tp st d).bind fun r => runCalls tp r.1 ds

/-- Arguments for which every write of the call stays on the 8 pages of 128
columns: pixels `x` in 0..127 and `y` in 0..63; small-font text at column 0..15,
row 0..7; large-font text (three pages high) at column 0..7, row 0..5. -/
def drawInRange : DrawCall → Prop
  | DrawCall.fill _ => True
  | DrawCall.setPixel x y _ => 0 ≤ x ∧ x ≤ 127 ∧ 0 ≤ y ∧ y ≤ 63
  | DrawCall.writeString x y _ bLarge =>
    0 ≤ x ∧ 0 ≤ y ∧ (if bLarge ≠ 0 then x ≤ 7 ∧ y ≤ 5 else x ≤ 15 ∧ y ≤ 7)

/-- A session opened in I2C mode on handle 3 with a blank shadow: the state after
a successful `oledInit` up to the font table and the call log. -/
def sampleOpen : Driver :=
  { ucFont := fun _ => 0, iScreenOffset := 0, ucScreen := fun _ => 0, fHandle := 3,
    bSPIMode := 0, iDCPin := 0, iResetPin := 0, calls := [] }

/-- A transport on which every call returns 1. -/
def okTransport : Transport := fun _ => 1

/-- Byte `m` (0..63) of large glyph `i` as the 16x32 pass of `RotateFont90` computes
it from the table `ucFont`: strip `m / 16` is rotated from the 16 bytes at offset
`9728 + 12 + i * 64 + 16 * (m / 16)`, its first eight output bytes from the even
source bytes and its last eight from the odd ones. -/
def rotatedLargeByte (ucFont : Nat → Nat) (i m : Nat) : Nat :=
  if m % 16 < 8 then
    rotateBits (fun x => ucFont (9728 + 12 + i * 64 + (m / 16 * 16 + x * 2)))
      (2 ^ (7 - m % 16))
  else
    rotateBits (fun x => ucFont (9728 + 12 + i * 64 + (m / 16 * 16 + (x * 2 + 1))))
      (2 ^ (7 - (m % 16 - 8)))

/-- A font table whose only nonzero byte is byte 0 of large glyph 0, `0x80`. -/
def probeFont : Nat → Nat := fun a => if a = 9728 then 0x80 else 0

/-- A font table whose only nonzero byte is byte 0 of large glyph 1, `0x80`. -/
def probeFont2 : Nat → Nat := fun a => if a = 9728 + 64 then 0x80 else 0

/-- The open sample session with a font table whose every byte is `0xff`. -/
def sampleOpenFF : Driver := { sampleOpen with ucFont := fun _ => 0xff }

/-! ## Theorems -/
/-! ### Basic facts about the transfer primitives -/

theorem WriteCommand_fst (tp : Transport) (st : Driver) (pData : List Nat) :
    (WriteCommand tp st pData).1 = { st with calls := st.calls ++ cmdCalls st pData } := by
  unfold WriteCommand cmdCalls
  split <;> simp

theorem oledSetPosition_eq (tp : Transport) (st : Driver) (x y : Int) :
    oledSetPosition tp st x y =
      { st with calls := st.calls ++ positionCalls st x y, iScreenOffset := (y * 128) + x } := by
  unfold oledSetPosition positionCalls
  simp only [WriteCommand_fst, cmdCalls]
  split <;> simp

theorem WriteData_eq (tp : Transport) (st : Driver) (pData : List Nat)
    (h0 : 0 ≤ st.iScreenOffset) (h1 : st.iScreenOffset + pData.length ≤ 1024) :
    WriteData tp st pData =
      some ({ st with
              calls := st.calls ++ dataCalls st pData
              ucScreen := memcpy st.ucScreen st.iScreenOffset.toNat pData
              iScreenOffset := st.iScreenOffset + pData.length },
            tp (st.calls ++ dataCalls st pData)) := by
  unfold WriteData dataCalls
  rw [if_pos ⟨h0, h1⟩]
  split <;> simp

theorem memcpy_inside (dst : Nat → Nat) (off : Nat) (src : List Nat) (a : Nat)
    (h0 : off ≤ a) (h1 : a < off + src.length) :
    memcpy dst off src a = src.getD (a - off) 0 := by
  unfold memcpy
  rw [if_pos ⟨h0, h1⟩]

theorem memcpy_outside (dst : Nat → Nat) (off : Nat) (src : List Nat) (a : Nat)
    (h : a < off ∨ off + src.length ≤ a) :
    memcpy dst off src a = dst a := by
  unfold memcpy
  rw [if_neg]
  omega

/-! ### Bit arithmetic of `oledSetPixel` -/

theorem testBit_notMask (k j : Nat) (hk : k < 8) (hj : j < 8) :
    (4294967295 - (1 <<< k)).testBit j = decide (j ≠ k) := by
  interval_cases k <;> interval_cases j <;> decide

theorem testBit_bitMask (k j : Nat) (hk : k < 8) (hj : j < 8) :
    (1 <<< k).testBit j = decide (j = k) := by
  interval_cases k <;> interval_cases j <;> decide

theorem testBit_clear (old k j : Nat) (hk : k < 8) (hj : j < 8) :
    ((old &&& (4294967295 - (1 <<< k))) % 256).testBit j =
      (old.testBit j && decide (j ≠ k)) := by
  have h256 : (256 : Nat) = 2 ^ 8 := by norm_num
  rw [h256, Nat.testBit_mod_two_pow, Nat.testBit_and, testBit_notMask k j hk hj]
  simp [hj]

theorem testBit_set (v k j : Nat) (hk : k < 8) (hj : j < 8) :
    ((v ||| (1 <<< k)) % 256).testBit j = (v.testBit j || decide (j = k)) := by
  have h256 : (256 : Nat) = 2 ^ 8 := by norm_num
  rw [h256, Nat.testBit_mod_two_pow, Nat.testBit_or, testBit_bitMask k j hk hj]
  simp [hj]

/-- Bit `k` of the byte `oledSetPixel` computes is set exactly for a nonzero colour. -/
theorem pixelByte_testBit (old k c : Nat) (hk : k < 8) :
    (pixelByte old k c).testBit k = true ↔ c ≠ 0 := by
  unfold pixelByte
  by_cases hc : c = 0
  · simp [hc, testBit_clear old k k hk hk]
  · simp [hc, testBit_set _ k k hk hk]

theorem and7_lt (y : Nat) : y &&& 7 < 8 := by
  have := @Nat.and_le_right y 7
  omega

theorem pixelIndex_lt (x y : Nat) (hx : x < 128) (hy : y < 64) : (y >>> 3) * 128 + x < 1024 := by
  have : y >>> 3 = y / 8 := by simp [Nat.shiftRight_eq_div_pow]
  omega

/-- Evaluation of `oledSetPixel` on an open session at an in-range pixel. -/
theorem oledSetPixel_inRange (tp : Transport) (st : Driver) (x y ucColor : Nat)
    (hopen : 0 ≤ st.fHandle) (hx : x < 128) (hy : y < 64) :
    oledSetPixel tp st x y ucColor =
      if pixelByte (st.ucScreen ((y >>> 3) * 128 + x)) (y &&& 7) ucColor
          ≠ st.ucScreen ((y >>> 3) * 128 + x) then
        some ({ st with
                calls := st.calls ++ positionCalls st x ((y >>> 3 : Nat) : Int) ++
                  dataCalls st [pixelByte (st.ucScreen ((y >>> 3) * 128 + x)) (y &&& 7) ucColor]
                ucScreen := memcpy st.ucScreen ((y >>> 3) * 128 + x)
                  [pixelByte (st.ucScreen ((y >>> 3) * 128 + x)) (y &&& 7) ucColor]
                iScreenOffset := (((y >>> 3) * 128 + x : Nat) : Int) + 1 }, 0)
      else some (st, 0) := by
  have hi := pixelIndex_lt x y hx hy
  have hs : ((y : Int) >>> (3 : Nat)) = ((y >>> 3 : Nat) : Int) := rfl
  have hl : Int.land (y : Int) 7 = ((y &&& 7 : Nat) : Int) := rfl
  have hidx : ((y : Int) >>> (3 : Nat)) * (128 : Int) + (x : Int) = (((y >>> 3) * 128 + x : Nat) : Int) := by
    rw [hs]; push_cast; ring
  unfold oledSetPixel
  rw [if_neg (by omega)]
  simp only [hidx, hl, Int.toNat_ofNat]
  rw [if_neg (by omega)]
  by_cases h : pixelByte (st.ucScreen ((y >>> 3) * 128 + x)) (y &&& 7) ucColor
      ≠ st.ucScreen ((y >>> 3) * 128 + x)
  · rw [if_pos h, if_pos h, oledSetPosition_eq, WriteData_eq]
    · have ht : ((((y >>> 3 : Nat) : Int) * 128 + (x : Int)).toNat) = (y >>> 3) * 128 + x := by
        omega
      simp [dataCalls, positionCalls, cmdCalls, hs, ht]
    · simp only [hs]; positivity
    · simp only [hs, List.length_singleton]; push_cast; push_cast at hi; omega
  · rw [if_neg h, if_neg h]

/-- C1: on an open session, for every pixel `x < 128`, `y < 64`, every colour and
every shadow content, `oledSetPixel` returns 0 and afterwards bit `y & 7` of shadow
byte `(y >> 3) * 128 + x` is set exactly when the colour is nonzero. -/
theorem oledSetPixel_sets_bit (tp : Transport) (st : Driver) (x y ucColor : Nat)
    (hopen : 0 ≤ st.fHandle) (hx : x < 128) (hy : y < 64) :
    ∃ st', oledSetPixel tp st x y ucColor = some (st', 0) ∧
      ((st'.ucScreen ((y >>> 3) * 128 + x)).testBit (y &&& 7) = true ↔ ucColor ≠ 0) := by
  rw [oledSetPixel_inRange tp st x y ucColor hopen hx hy]
  have key := pixelByte_testBit (st.ucScreen ((y >>> 3) * 128 + x)) (y &&& 7) ucColor (and7_lt y)
  by_cases h : pixelByte (st.ucScreen ((y >>> 3) * 128 + x)) (y &&& 7) ucColor
      ≠ st.ucScreen ((y >>> 3) * 128 + x)
  · rw [if_pos h]
    refine ⟨_, rfl, ?_⟩
    simp only []
    rw [memcpy_inside _ _ _ _ (le_refl _) (by simp)]
    simpa using key
  · rw [if_neg h]
    refine ⟨st, rfl, ?_⟩
    rw [not_not] at h
    rw [← h]
    exact key

/-- Witness for C1: pixel (5, 10) set on the sample session. -/
theorem oledSetPixel_sets_bit_witness :
    (0 : Int) ≤ sampleOpen.fHandle ∧
    ∃ st', oledSetPixel okTransport sampleOpen (5 : Nat) (10 : Nat) 1 = some (st', 0) ∧
      ((st'.ucScreen ((10 >>> 3) * 128 + 5)).testBit (10 &&& 7) = true ↔ (1 : Nat) ≠ 0) :=
  ⟨by decide, oledSetPixel_sets_bit okTransport sampleOpen 5 10 1 (by decide) (by decide)
    (by decide)⟩

/-- C2 (failing input): on the open sample session `oledSetPixel(128, 0, 1)` is not
rejected.  It returns 0, sends a reposition whose column-high command is `0x18`
(column 128) followed by the data byte `0x01`, and sets bit 0 of shadow byte 128,
which is the byte of pixel (0, 8). -/
theorem oledSetPixel_x128_accepted :
    (oledSetPixel okTransport sampleOpen 128 0 1).map
        (fun r => (r.2, r.1.ucScreen 128, r.1.calls)) =
      some (0, 1, [Event.aioWriteI2C 3 0x00 [0xb0], Event.aioWriteI2C 3 0x00 [0x00],
                   Event.aioWriteI2C 3 0x00 [0x18], Event.aioWriteI2C 3 0x40 [0x01]]) := by
  decide

/-- What the guard of `oledSetPixel` does on an open session: a pixel whose row
`y` lies outside 0..63 while `x` is inside 0..127 is rejected with -1 and nothing
changes.  The row is taken in `-134217728 ≤ y < 134217728`, where the byte index
`(y >> 3) * 128 + x` fits a 32-bit `int`.  The guard tests the byte index only, so
this says nothing about an `x` outside 0..127. -/
theorem oledSetPixel_rejects_bad_row (tp : Transport) (st : Driver) (x y : Int) (ucColor : Nat)
    (hx : 0 ≤ x ∧ x ≤ 127) (hy : y < 0 ∨ 63 < y)
    (hfit : -134217728 ≤ y ∧ y < 134217728) :
    oledSetPixel tp st x y ucColor = some (st, -1) ∧
    isInt32 ((y >>> (3 : Nat)) * 128) ∧ isInt32 ((y >>> (3 : Nat)) * 128 + x) := by
  have hs : y >>> (3 : Nat) = y / 8 := by
    rw [Int.shiftRight_eq_div_pow]
    norm_num
  refine ⟨?_, ?_, ?_⟩
  · unfold oledSetPixel
    split
    · rfl
    · rw [if_pos]
      rw [hs]
      omega
  · unfold isInt32
    rw [hs]
    omega
  · unfold isInt32
    rw [hs]
    omega

/-- Every bit of the byte `oledSetPixel` computes. -/
theorem pixelByte_testBit_all (old k c j : Nat) (hk : k < 8) :
    (pixelByte old k c).testBit j =
      (decide (j < 8) && (if j = k then decide (c ≠ 0) else old.testBit j)) := by
  have h256 : (256 : Nat) = 2 ^ 8 := by norm_num
  by_cases hj : j < 8
  · unfold pixelByte
    by_cases hc : c = 0
    · simp only [hc, ne_eq, not_true_eq_false, if_false, testBit_clear old k j hk hj]
      by_cases hjk : j = k <;> simp [hj, hjk, hk]
    · simp only [hc, ne_eq, not_false_eq_true, if_true, testBit_set _ k j hk hj,
        testBit_clear old k j hk hj]
      by_cases hjk : j = k <;> simp [hj, hjk, hk]
  · have hlt : pixelByte old k c < 2 ^ 8 := by
      unfold pixelByte
      split <;> exact Nat.mod_lt _ (by norm_num)
    have : (pixelByte old k c).testBit j = false :=
      Nat.testBit_lt_two_pow (lt_of_lt_of_le hlt (Nat.pow_le_pow_right (by norm_num) (by omega)))
    simp [this, hj]

/-- Recomputing the pixel byte with the same bit number and colour changes nothing. -/
theorem pixelByte_idem (old k c : Nat) (hk : k < 8) :
    pixelByte (pixelByte old k c) k c = pixelByte old k c := by
  apply Nat.eq_of_testBit_eq
  intro j
  rw [pixelByte_testBit_all _ k c j hk, pixelByte_testBit_all old k c j hk]
  by_cases hj : j < 8 <;> by_cases hjk : j = k <;> simp [hj, hjk]

/-- C3: on an open session and an in-range pixel, the second of two identical
`oledSetPixel` calls returns 0 and leaves the whole driver state, the log of
library calls included, exactly as the first call left it; the first call issues
either nothing or one reposition followed by one one-byte data transfer. -/
theorem oledSetPixel_twice (tp : Transport) (st : Driver) (x y ucColor : Nat)
    (hopen : 0 ≤ st.fHandle) (hx : x < 128) (hy : y < 64) :
    ∃ st1, oledSetPixel tp st x y ucColor = some (st1, 0) ∧
      oledSetPixel tp st1 x y ucColor = some (st1, 0) ∧
      (st1.calls = st.calls ∨
        ∃ uc, st1.calls =
          st.calls ++ positionCalls st x ((y >>> 3 : Nat) : Int) ++ dataCalls st [uc]) := by
  have hk := and7_lt y
  rw [oledSetPixel_inRange tp st x y ucColor hopen hx hy]
  by_cases h : pixelByte (st.ucScreen ((y >>> 3) * 128 + x)) (y &&& 7) ucColor
      ≠ st.ucScreen ((y >>> 3) * 128 + x)
  · rw [if_pos h]
    refine ⟨_, rfl, ?_, Or.inr ⟨_, rfl⟩⟩
    rw [oledSetPixel_inRange tp _ x y ucColor (by exact hopen) hx hy]
    have hb : memcpy st.ucScreen ((y >>> 3) * 128 + x)
        [pixelByte (st.ucScreen ((y >>> 3) * 128 + x)) (y &&& 7) ucColor] ((y >>> 3) * 128 + x)
        = pixelByte (st.ucScreen ((y >>> 3) * 128 + x)) (y &&& 7) ucColor := by
      rw [memcpy_inside _ _ _ _ (le_refl _) (by simp)]
      simp
    simp only [hb, pixelByte_idem _ _ _ hk, ne_eq, not_true_eq_false, if_false]
  · rw [if_neg h]
    refine ⟨st, rfl, ?_, Or.inl rfl⟩
    rw [oledSetPixel_inRange tp st x y ucColor hopen hx hy, if_neg h]

/-- Witness for C3: pixel (5, 10) set twice on the sample session. -/
theorem oledSetPixel_twice_witness :
    (0 : Int) ≤ sampleOpen.fHandle ∧
    ∃ st1, oledSetPixel okTransport sampleOpen (5 : Nat) (10 : Nat) 1 = some (st1, 0) ∧
      oledSetPixel okTransport st1 (5 : Nat) (10 : Nat) 1 = some (st1, 0) ∧
      (st1.calls = sampleOpen.calls ∨
        ∃ uc, st1.calls =
          sampleOpen.calls ++ positionCalls sampleOpen (5 : Nat) ((10 >>> 3 : Nat) : Int) ++
            dataCalls sampleOpen [uc]) :=
  ⟨by decide, oledSetPixel_twice okTransport sampleOpen 5 10 1 (by decide) (by decide)
    (by decide)⟩

/-! ### Counted loops -/

/-- A counted loop whose every iteration succeeds runs through the chain of states. -/
theorem foldlM_range_chain {σ : Type} (body : σ → Nat → Option σ) (S : Nat → σ) (n : Nat)
    (h : ∀ i, i < n → body (S i) i = some (S (i + 1))) :
    (List.range n).foldlM body (S 0) = some (S n) := by
  induction n with
  | zero => rfl
  | succ k ih =>
    rw [List.range_succ, List.foldlM_append, ih (fun i hi => h i (Nat.lt_succ_of_lt hi))]
    simp only [Option.bind_eq_bind, Option.some_bind, List.foldlM_cons, List.foldlM_nil]
    rw [h k (Nat.lt_succ_self k)]
    rfl

theorem readBytes_length (mem : Nat → Nat) (off n : Nat) : (readBytes mem off n).length = n := by
  simp [readBytes]

/-! ### `oledFill` -/

theorem memcpy_replicate (dst : Nat → Nat) (off n p a : Nat) :
    memcpy dst off (List.replicate n p) a = if off ≤ a ∧ a < off + n then p else dst a := by
  unfold memcpy
  by_cases h : off ≤ a ∧ a < off + n
  · have hlt : a - off < n := by omega
    simp [h, List.getD, List.getElem?_replicate, hlt]
  · simp [h]

theorem pageByte (y : Nat) (hy : y < 8) : toUChar (Int.lor 0xb0 (y : Int)) = 0xb0 + y := by
  interval_cases y <;> rfl

theorem positionCalls_col0 (st : Driver) (y : Nat) (hy : y < 8) :
    positionCalls st 0 y = cmdCalls st [0xb0 + y] ++ cmdCalls st [0x00] ++ cmdCalls st [0x10] := by
  unfold positionCalls
  rw [pageByte y hy]
  rfl

/-- One iteration of the page loop of `oledFill`, for a page `y < 8`. -/
theorem fillPage_eq (tp : Transport) (st : Driver) (temp : List Nat) (y : Nat)
    (ht : temp.length = 128) (hy : y < 8) :
    fillPage tp temp st y =
      some { st with
             calls := st.calls ++
               (cmdCalls st [0xb0 + y] ++ cmdCalls st [0x00] ++ cmdCalls st [0x10] ++
                dataCalls st temp)
             ucScreen := memcpy st.ucScreen (y * 128) temp
             iScreenOffset := (y : Int) * 128 + 128 } := by
  unfold fillPage
  rw [oledSetPosition_eq, WriteData_eq]
  · have htn : ((y : Int) * 128 + 0).toNat = y * 128 := by omega
    simp only [Option.map_some', positionCalls_col0 st y hy, htn, ht, List.append_assoc,
      add_zero, Nat.cast_ofNat]
    rfl
  · simp only []; positivity
  · simp only [ht]; push_cast; omega

/-- The page loop of `oledFill`, for its first `n ≤ 8` pages. -/
theorem fillLoop_eq (tp : Transport) (st : Driver) (p n : Nat) (hn : n ≤ 8) :
    (List.range n).foldlM (fillPage tp (List.replicate 128 p)) st
      = some (fillLoopState st p n) := by
  have h0 : fillLoopState st p 0 = st := by
    cases st
    simp [fillLoopState]
  have := foldlM_range_chain (fillPage tp (List.replicate 128 p)) (fillLoopState st p) n (by
    intro i hi
    rw [fillPage_eq tp _ _ i (List.length_replicate _ _) (by omega)]
    congr 1
    apply Driver.ext
    · rfl
    · simp only [fillLoopState]
      rw [if_neg (by omega)]
      push_cast
      ring
    · simp only [fillLoopState, List.range_succ, List.foldl_append, List.foldl_cons,
        List.foldl_nil]
    · rfl
    · rfl
    · rfl
    · rfl
    · show st.calls ++ _ ++ (cmdCalls st _ ++ cmdCalls st _ ++ cmdCalls st _ ++ dataCalls st _)
        = _
      simp only [fillLoopState, List.range_succ, List.flatMap_append, List.flatMap_cons,
        List.flatMap_nil, List.append_nil, List.append_assoc])
  rw [h0] at this
  exact this

/-- Evaluation of `oledFill` on an open session. -/
theorem oledFill_eq (tp : Transport) (st : Driver) (p : Nat) (hopen : 0 ≤ st.fHandle) :
    oledFill tp st p = some (fillLoopState st p 8, 0) := by
  unfold oledFill
  rw [if_neg (by omega), fillLoop_eq tp st p 8 (le_refl 8)]
  rfl

theorem fillLoopState_shadow (st : Driver) (p a : Nat) (ha : a < 1024) :
    (fillLoopState st p 8).ucScreen a = p := by
  have hr : List.range 8 = [0, 1, 2, 3, 4, 5, 6, 7] := by decide
  simp only [fillLoopState, hr, List.foldl_cons, List.foldl_nil, memcpy_replicate]
  split_ifs <;> first | rfl | omega

/-- C4: on an open session `oledFill(p)` returns 0, leaves each of the 1024 shadow
bytes equal to `p`, and issues, for pages 0 to 7 in ascending order, the three
position commands `B0|page`, `00`, `10` followed by one data transfer of 128 bytes
`p`, and nothing else.  Consequently `oledFill(0xFF)` followed by `oledFill(0x00)`
leaves every shadow byte equal to 0. -/
theorem oledFill_spec (tp : Transport) (st : Driver) (hopen : 0 ≤ st.fHandle) :
    (∀ p : Nat, ∃ st', oledFill tp st p = some (st', 0) ∧
      (∀ a, a < 1024 → st'.ucScreen a = p) ∧
      st'.calls = st.calls ++ (List.range 8).flatMap (fun page =>
        cmdCalls st [0xb0 + page] ++ cmdCalls st [0x00] ++ cmdCalls st [0x10] ++
          dataCalls st (List.replicate 128 p))) ∧
    (∃ st1 st2, oledFill tp st 0xff = some (st1, 0) ∧ oledFill tp st1 0x00 = some (st2, 0) ∧
      ∀ a, a < 1024 → st2.ucScreen a = 0x00) := by
  constructor
  · intro p
    exact ⟨_, oledFill_eq tp st p hopen, fillLoopState_shadow st p, rfl⟩
  · exact ⟨_, _, oledFill_eq tp st 0xff hopen, oledFill_eq tp _ 0x00 hopen,
      fillLoopState_shadow _ 0x00⟩

/-- Witness for C4: the sample session. -/
theorem oledFill_spec_witness :
    (0 : Int) ≤ sampleOpen.fHandle ∧
    ((∀ p : Nat, ∃ st', oledFill okTransport sampleOpen p = some (st', 0) ∧
      (∀ a, a < 1024 → st'.ucScreen a = p) ∧
      st'.calls = sampleOpen.calls ++ (List.range 8).flatMap (fun page =>
        cmdCalls sampleOpen [0xb0 + page] ++ cmdCalls sampleOpen [0x00] ++
          cmdCalls sampleOpen [0x10] ++ dataCalls sampleOpen (List.replicate 128 p))) ∧
    (∃ st1 st2, oledFill okTransport sampleOpen 0xff = some (st1, 0) ∧
      oledFill okTransport st1 0x00 = some (st2, 0) ∧
      ∀ a, a < 1024 → st2.ucScreen a = 0x00)) :=
  ⟨by decide, oledFill_spec okTransport sampleOpen (by decide)⟩

/-! ### `oledWriteString` -/

/-- The small-font loop of `oledWriteString`, when its `n` glyphs fit in the shadow. -/
theorem smallLoop_eq (tp : Transport) (st : Driver) (szMsg : List Nat) (base n : Nat)
    (hb : st.iScreenOffset = base) (hfit : base + 8 * n ≤ 1024) :
    (List.range n).foldlM (smallGlyph tp szMsg) st = some (smallLoopState st szMsg base n) := by
  have h0 : smallLoopState st szMsg base 0 = st := by
    cases st
    simp only [smallLoopState, smallShadow] at hb ⊢
    simp [hb]
  have := foldlM_range_chain (smallGlyph tp szMsg) (smallLoopState st szMsg base) n (by
    intro i hi
    unfold smallGlyph
    rw [WriteData_eq]
    · simp only [Option.map_some', smallLoopState, smallShadow, List.range_succ,
        List.flatMap_append, List.foldl_append, readBytes_length, smallGlyphCalls, glyph8,
        dataCalls]
      have ht : ((base : Int) + 8 * (i : Int)).toNat = base + 8 * i := by omega
      simp [ht, smallGlyphCalls, glyph8, dataCalls]
      ring
    · simp only [smallLoopState]; positivity
    · simp only [smallLoopState, readBytes_length]; omega)
  rw [h0] at this
  exact this

/-- One iteration of the large-font loop, when the glyph fits in the shadow. -/
theorem largeGlyph_eq (tp : Transport) (st : Driver) (szMsg : List Nat) (x y i : Nat)
    (hfit : (y + 2) * 128 + x + 16 * i + 16 ≤ 1024) :
    largeGlyph tp x y szMsg st i =
      some { st with
             calls := st.calls ++ largeGlyphCalls st x y szMsg i
             ucScreen :=
               memcpy (memcpy (memcpy st.ucScreen (y * 128 + x + 16 * i)
                 (glyph16 st.ucFont szMsg i 0))
                 (y * 128 + x + 128 + 16 * i) (glyph16 st.ucFont szMsg i 1))
                 (y * 128 + x + 256 + 16 * i) (glyph16 st.ucFont szMsg i 2)
             iScreenOffset := (((y + 2) * 128 + x + 16 * (i + 1) : Nat) : Int) } := by
  have t0 : ((y : Int) * 128 + ((x : Int) + (i : Int) * 16)).toNat = y * 128 + x + 16 * i := by
    omega
  have t1 : (((y : Int) + 1) * 128 + ((x : Int) + (i : Int) * 16)).toNat
      = y * 128 + x + 128 + 16 * i := by omega
  have t2 : (((y : Int) + 2) * 128 + ((x : Int) + (i : Int) * 16)).toNat
      = y * 128 + x + 256 + 16 * i := by omega
  unfold largeGlyph
  simp only [oledSetPosition_eq]
  rw [WriteData_eq _ _ _ (by simp only []; positivity)
    (by simp only [readBytes_length]; push_cast; omega)]
  simp only [Option.some_bind]
  rw [WriteData_eq _ _ _ (by simp only []; positivity)
    (by simp only [readBytes_length]; push_cast; omega)]
  simp only [Option.some_bind]
  rw [WriteData_eq _ _ _ (by simp only []; positivity)
    (by simp only [readBytes_length]; push_cast; omega)]
  simp only [Option.map_some', t0, t1, t2, readBytes_length]
  congr 1
  apply Driver.ext
  · rfl
  · simp only []; push_cast; ring
  · simp only [glyph16, Nat.mul_zero, Nat.add_zero, Nat.mul_one]
  · rfl
  · rfl
  · rfl
  · rfl
  · show st.calls ++ positionCalls st _ _ ++ dataCalls st _ ++ positionCalls st _ _ ++
      dataCalls st _ ++ positionCalls st _ _ ++ dataCalls st _ = _
    simp only [largeGlyphCalls, glyph16, Nat.mul_zero, Nat.add_zero, Nat.mul_one,
      List.append_assoc]

/-- The large-font loop of `oledWriteString`, when its `n` glyphs fit in the shadow. -/
theorem largeLoop_eq (tp : Transport) (st : Driver) (szMsg : List Nat) (x y n : Nat)
    (hfit : n = 0 ∨ (y + 2) * 128 + x + 16 * n ≤ 1024) :
    (List.range n).foldlM (largeGlyph tp x y szMsg) st = some (largeLoopState st szMsg x y n) := by
  have h0 : largeLoopState st szMsg x y 0 = st := by
    cases st
    simp [largeLoopState, largeShadow]
  have := foldlM_range_chain (largeGlyph tp x y szMsg) (largeLoopState st szMsg x y) n (by
    intro i hi
    rw [largeGlyph_eq tp _ szMsg x y i (by omega)]
    congr 1
    apply Driver.ext
    · rfl
    · simp [largeLoopState]
    · simp only [largeLoopState, largeShadow, List.range_succ, List.foldl_append,
        List.foldl_cons, List.foldl_nil]
    · rfl
    · rfl
    · rfl
    · rfl
    · show st.calls ++ _ ++ largeGlyphCalls st x y szMsg i = _
      simp only [largeLoopState, List.range_succ, List.flatMap_append, List.flatMap_cons,
        List.flatMap_nil, List.append_nil, List.append_assoc])
  rw [h0] at this
  exact this

/-- Evaluation of `oledWriteString` with the small font on an open session, for a
column `x ≤ 16` and a row `y ≤ 7`. -/
theorem oledWriteString_small_eq (tp : Transport) (st : Driver) (x y : Nat) (szMsg : List Nat)
    (hopen : 0 ≤ st.fHandle) (hx : x ≤ 16) (hy : y ≤ 7) :
    oledWriteString tp st x y szMsg 0 =
      some (smallLoopState (oledSetPosition tp st ((x : Int) * 8) y) szMsg (y * 128 + x * 8)
        (min szMsg.length (16 - x)), 0) := by
  have hno : ¬ st.fHandle < 0 := by omega
  have hn : (if (szMsg.length : Int) + (x : Int) > 16 then 16 - (x : Int)
      else (szMsg.length : Int)).toNat = min szMsg.length (16 - x) := by
    split <;> omega
  have hnn : ¬ (if (szMsg.length : Int) + (x : Int) > 16 then 16 - (x : Int)
      else (szMsg.length : Int)) < 0 := by
    split <;> omega
  unfold oledWriteString
  simp only [hno, if_false, ne_eq, not_true_eq_false, hnn, hn]
  rw [smallLoop_eq tp _ szMsg (y * 128 + x * 8) _
    (by rw [oledSetPosition_eq]; simp only []; push_cast; ring)
    (by omega)]
  rfl

/-- Evaluation of `oledWriteString` with the large font on an open session, for a
column `x ≤ 8` and a row `y ≤ 5`. -/
theorem oledWriteString_large_eq (tp : Transport) (st : Driver) (x y : Nat) (szMsg : List Nat)
    (bLarge : Int) (hL : bLarge ≠ 0) (hopen : 0 ≤ st.fHandle) (hx : x ≤ 8) (hy : y ≤ 5) :
    oledWriteString tp st x y szMsg bLarge =
      some (largeLoopState st szMsg (x * 16) y (min szMsg.length (8 - x)), 0) := by
  have hno : ¬ st.fHandle < 0 := by omega
  have hn : (if (szMsg.length : Int) + (x : Int) > 8 then 8 - (x : Int)
      else (szMsg.length : Int)).toNat = min szMsg.length (8 - x) := by
    split <;> omega
  have hnn : ¬ (if (szMsg.length : Int) + (x : Int) > 8 then 8 - (x : Int)
      else (szMsg.length : Int)) < 0 := by
    split <;> omega
  have hx16 : (x : Int) * 16 = ((x * 16 : Nat) : Int) := by push_cast; ring
  unfold oledWriteString
  simp only [hno, if_false, ne_eq, hL, not_false_eq_true, if_true, hnn, hn, hx16]
  rw [largeLoop_eq tp st szMsg (x * 16) y _ (by omega)]
  rfl

/-- The return value of `oledWriteString` on an open session is -1 exactly when
the column lies beyond the width (16 small, 8 large) of the font, for a column and
a text length whose sum `iLen + x` fits a 32-bit `int`. -/
theorem oledWriteString_fails_iff (tp : Transport) (st : Driver) (x y : Int) (szMsg : List Nat)
    (bLarge : Int) (hopen : 0 ≤ st.fHandle)
    (hx : -67108864 ≤ x ∧ x ≤ 67108864) (hlen : szMsg.length ≤ 1073741824) :
    isInt32 ((szMsg.length : Int) + x) ∧
    ((∃ st', oledWriteString tp st x y szMsg bLarge = some (st', -1)) ↔
      (if bLarge ≠ 0 then (8 : Int) else 16) - x < 0) := by
  have hno : ¬ st.fHandle < 0 := by omega
  refine ⟨by unfold isInt32; omega, ?_⟩
  by_cases hL : bLarge ≠ 0
  · unfold oledWriteString
    simp only [hno, if_false, ne_eq, hL, not_false_eq_true, if_true]
    by_cases hneg : (if (szMsg.length : Int) + x > 8 then 8 - x else (szMsg.length : Int)) < 0
    · rw [if_pos hneg]
      constructor
      · intro _
        split at hneg <;> omega
      · intro _
        exact ⟨_, rfl⟩
    · rw [if_neg hneg]
      constructor
      · rintro ⟨st', h⟩
        cases hf : (List.range (if (szMsg.length : Int) + x > 8 then 8 - x
            else (szMsg.length : Int)).toNat).foldlM (largeGlyph tp (x * 16) y szMsg) st with
        | none => rw [hf] at h; simp at h
        | some s => rw [hf] at h; simp at h
      · intro h
        exfalso
        apply hneg
        rw [if_pos (by omega)]
        exact h
  · have hz : bLarge = 0 := by
      by_contra h
      exact hL h
    subst hz
    unfold oledWriteString
    simp only [hno, if_false, ne_eq, not_true_eq_false]
    by_cases hneg : (if (szMsg.length : Int) + x > 16 then 16 - x else (szMsg.length : Int)) < 0
    · rw [if_pos hneg]
      constructor
      · intro _
        split at hneg <;> omega
      · intro _
        exact ⟨_, rfl⟩
    · rw [if_neg hneg]
      constructor
      · rintro ⟨st', h⟩
        cases hf : (List.range (if (szMsg.length : Int) + x > 16 then 16 - x
            else (szMsg.length : Int)).toNat).foldlM (smallGlyph tp szMsg)
            (oledSetPosition tp st (x * 8) y) with
        | none => rw [hf] at h; simp at h
        | some s => rw [hf] at h; simp at h
      · intro h
        exfalso
        apply hneg
        rw [if_pos (by omega)]
        exact h

/-- The calls of one large glyph depend on the font table and on the transport
variables only. -/
theorem largeGlyphCalls_congr (s t : Driver) (x y : Int) (szMsg : List Nat) (i : Nat)
    (hf : s.ucFont = t.ucFont) (hh : s.fHandle = t.fHandle) (hm : s.bSPIMode = t.bSPIMode)
    (hd : s.iDCPin = t.iDCPin) :
    largeGlyphCalls s x y szMsg i = largeGlyphCalls t x y szMsg i := by
  simp only [largeGlyphCalls, positionCalls, cmdCalls, dataCalls, hf, hh, hm, hd]

/-- One iteration of the large-font loop at pixel column `x + 16 * i`, of either
sign, when its three strips land inside the shadow: the calls it appends and the
variables it leaves alone. -/
theorem largeGlyph_calls (tp : Transport) (st : Driver) (szMsg : List Nat) (x y : Int) (i : Nat)
    (h0 : 0 ≤ y * 128 + (x + i * 16)) (h1 : (y + 2) * 128 + (x + i * 16) + 16 ≤ 1024) :
    ∃ s, largeGlyph tp x y szMsg st i = some s ∧
      s.calls = st.calls ++ largeGlyphCalls st x y szMsg i ∧
      s.ucFont = st.ucFont ∧ s.fHandle = st.fHandle ∧ s.bSPIMode = st.bSPIMode ∧
      s.iDCPin = st.iDCPin := by
  unfold largeGlyph
  simp only [oledSetPosition_eq]
  rw [WriteData_eq _ _ _ (by simp only []; omega)
    (by simp only [readBytes_length]; push_cast; omega)]
  simp only [Option.some_bind]
  rw [WriteData_eq _ _ _ (by simp only []; omega)
    (by simp only [readBytes_length]; push_cast; omega)]
  simp only [Option.some_bind]
  rw [WriteData_eq _ _ _ (by simp only []; omega)
    (by simp only [readBytes_length]; push_cast; omega)]
  simp only [Option.map_some']
  refine ⟨_, rfl, ?_, rfl, rfl, rfl, rfl⟩
  show st.calls ++ positionCalls st _ _ ++ dataCalls st _ ++ positionCalls st _ _ ++
    dataCalls st _ ++ positionCalls st _ _ ++ dataCalls st _ = _
  simp only [largeGlyphCalls, glyph16, Nat.mul_zero, Nat.add_zero, Nat.mul_one,
    List.append_assoc]

/-- The large-font loop from pixel column `x`, of either sign, when each of its
`n` glyphs lands inside the shadow. -/
theorem largeLoop_calls (tp : Transport) (st : Driver) (szMsg : List Nat) (x y : Int) (n : Nat)
    (hfit : ∀ i : Nat, i < n →
      0 ≤ y * 128 + (x + i * 16) ∧ (y + 2) * 128 + (x + i * 16) + 16 ≤ 1024) :
    ∃ s, (List.range n).foldlM (largeGlyph tp x y szMsg) st = some s ∧
      s.calls = st.calls ++ (List.range n).flatMap (largeGlyphCalls st x y szMsg) ∧
      s.ucFont = st.ucFont ∧ s.fHandle = st.fHandle ∧ s.bSPIMode = st.bSPIMode ∧
      s.iDCPin = st.iDCPin := by
  induction n with
  | zero => exact ⟨st, rfl, by simp, rfl, rfl, rfl, rfl⟩
  | succ k ih =>
    obtain ⟨s1, hs1, hc1, hf1, hh1, hm1, hd1⟩ := ih (fun i hi => hfit i (Nat.lt_succ_of_lt hi))
    obtain ⟨s2, hs2, hc2, hf2, hh2, hm2, hd2⟩ :=
      largeGlyph_calls tp s1 szMsg x y k (hfit k (Nat.lt_succ_self k)).1
        (hfit k (Nat.lt_succ_self k)).2
    refine ⟨s2, ?_, ?_, hf2.trans hf1, hh2.trans hh1, hm2.trans hm1, hd2.trans hd1⟩
    · rw [List.range_succ, List.foldlM_append, hs1]
      simp only [Option.bind_eq_bind, Option.some_bind, List.foldlM_cons, List.foldlM_nil]
      rw [hs2]
      rfl
    · rw [hc2, hc1, largeGlyphCalls_congr s1 st x y szMsg k hf1 hh1 hm1 hd1]
      simp only [List.range_succ, List.flatMap_append, List.flatMap_cons, List.flatMap_nil,
        List.append_nil, List.append_assoc]

/-- C5 (counterexample): with the small font and column 16 the remaining width
`16 - 16` is 0, yet `oledWriteString` returns 0, not -1; it sends the three
position commands and draws no glyph. -/
theorem oledWriteString_width0_returns0 :
    (16 : Int) - 16 ≤ 0 ∧
    (oledWriteString okTransport sampleOpen 16 0 [0x41] 0).map
        (fun r => (r.2, r.1.calls)) =
      some (0, [Event.aioWriteI2C 3 0x00 [0xb0], Event.aioWriteI2C 3 0x00 [0x00],
                Event.aioWriteI2C 3 0x00 [0x18]]) := by
  decide

/-- C5 (amended): on an open session, with `W = 16` for the small font and `W = 8`
for the large font, for every column `|col| ≤ 2^26`, row `|row| ≤ 2^23` and text of
at most `2^30` bytes.  Within these bounds every `int` value the call computes
(`iLen + x`, `W - x`, `x * 8`, `x * 16`, `i * 16`, `x * 16 + i * 16`, `y + p`,
`(y + p) * 128` and the cursor `(y + p) * 128 + column`) fits 32 bits.
`oledWriteString` returns -1 exactly when `W - col < 0`.  When `W - col ≥ 0` and
the `n = min(length(text), W - col)` glyphs land inside the 1024-byte shadow
(`n = 0`, or the cursor of the first glyph is `≥ 0` and the last byte of the last
glyph is below 1024; `col` and `row` may be negative) it returns 0 and draws
exactly `n` glyphs: for the small font one reposition to `(col * 8, row)` followed
by `n` 8-byte glyph transfers, for the large font `n` groups of three (reposition,
16-byte transfer) pairs. -/
theorem oledWriteString_clamp (tp : Transport) (st : Driver) (x y : Int) (szMsg : List Nat)
    (hopen : 0 ≤ st.fHandle)
    (hx : -67108864 ≤ x ∧ x ≤ 67108864) (hy : -8388608 ≤ y ∧ y ≤ 8388608)
    (hlen : szMsg.length ≤ 1073741824) :
    (isInt32 ((szMsg.length : Int) + x) ∧ isInt32 (16 - x) ∧ isInt32 (8 - x) ∧
     isInt32 (x * 8) ∧ isInt32 (x * 16) ∧ isInt32 (y * 128) ∧ isInt32 (y * 128 + x * 8) ∧
     ∀ (i : Nat) (p : Int), (i : Int) ≤ 8 - x → 0 ≤ p → p ≤ 2 →
       isInt32 ((i : Int) * 16) ∧ isInt32 (x * 16 + i * 16) ∧ isInt32 (y + p) ∧
       isInt32 ((y + p) * 128) ∧ isInt32 ((y + p) * 128 + (x * 16 + i * 16))) ∧
    (((∃ st', oledWriteString tp st x y szMsg 0 = some (st', -1)) ↔ 16 - x < 0) ∧
     (0 ≤ 16 - x →
       (min szMsg.length (16 - x).toNat = 0 ∨
         (0 ≤ y * 128 + x * 8 ∧
          y * 128 + x * 8 + 8 * ((min szMsg.length (16 - x).toNat : Nat) : Int) ≤ 1024)) →
       ∃ st', oledWriteString tp st x y szMsg 0 = some (st', 0) ∧
         st'.calls = st.calls ++ positionCalls st (x * 8) y ++
           (List.range (min szMsg.length (16 - x).toNat)).flatMap (smallGlyphCalls st szMsg))) ∧
    (∀ bLarge : Int, bLarge ≠ 0 →
      ((∃ st', oledWriteString tp st x y szMsg bLarge = some (st', -1)) ↔ 8 - x < 0) ∧
      (0 ≤ 8 - x →
        (min szMsg.length (8 - x).toNat = 0 ∨
          (0 ≤ y * 128 + x * 16 ∧
           (y + 2) * 128 + x * 16 + 16 * ((min szMsg.length (8 - x).toNat : Nat) : Int)
             ≤ 1024)) →
        ∃ st', oledWriteString tp st x y szMsg bLarge = some (st', 0) ∧
          st'.calls = st.calls ++
            (List.range (min szMsg.length (8 - x).toNat)).flatMap
              (largeGlyphCalls st (x * 16) y szMsg))) := by
  have hno : ¬ st.fHandle < 0 := by omega
  refine ⟨?_, ⟨?_, ?_⟩, fun bLarge hL => ⟨?_, ?_⟩⟩
  · unfold isInt32
    refine ⟨by omega, by omega, by omega, by omega, by omega, by omega, by omega, ?_⟩
    intro i p hi hp0 hp2
    refine ⟨by omega, by omega, by omega, by omega, by omega⟩
  · simpa using (oledWriteString_fails_iff tp st x y szMsg 0 hopen hx hlen).2
  · intro hw hfit
    have hn : (if (szMsg.length : Int) + x > 16 then 16 - x
        else (szMsg.length : Int)).toNat = min szMsg.length (16 - x).toNat := by
      split <;> omega
    have hnn : ¬ (if (szMsg.length : Int) + x > 16 then 16 - x
        else (szMsg.length : Int)) < 0 := by
      split <;> omega
    unfold oledWriteString
    simp only [hno, if_false, ne_eq, not_true_eq_false, hnn, hn]
    rcases hfit with h0 | ⟨hb0, hb1⟩
    · rw [h0]
      refine ⟨_, rfl, ?_⟩
      simp [oledSetPosition_eq]
    · rw [smallLoop_eq tp _ szMsg (y * 128 + x * 8).toNat _
        (by rw [oledSetPosition_eq]; simp only []; omega) (by omega)]
      refine ⟨_, rfl, ?_⟩
      simp only [smallLoopState, oledSetPosition_eq, List.append_assoc]
      rfl
  · simpa [hL] using (oledWriteString_fails_iff tp st x y szMsg bLarge hopen hx hlen).2
  · intro hw hfit
    have hn : (if (szMsg.length : Int) + x > 8 then 8 - x
        else (szMsg.length : Int)).toNat = min szMsg.length (8 - x).toNat := by
      split <;> omega
    have hnn : ¬ (if (szMsg.length : Int) + x > 8 then 8 - x
        else (szMsg.length : Int)) < 0 := by
      split <;> omega
    obtain ⟨s, hs, hc, _, _, _, _⟩ := largeLoop_calls tp st szMsg (x * 16) y
      (min szMsg.length (8 - x).toNat) (by
        intro i hi
        rcases hfit with h0 | ⟨hb0, hb1⟩
        · omega
        · constructor <;> omega)
    unfold oledWriteString
    simp only [hno, if_false, ne_eq, hL, not_false_eq_true, if_true, hnn, hn]
    rw [hs]
    exact ⟨s, rfl, hc⟩

/-- Witness for C5 (amended): the text "HI" at column -1, row 1 of the sample
session, drawn complete with either font. -/
theorem oledWriteString_clamp_witness :
    (0 : Int) ≤ sampleOpen.fHandle ∧
    (∃ st', oledWriteString okTransport sampleOpen (-1) 1 [0x48, 0x49] 0 = some (st', 0) ∧
      st'.calls = sampleOpen.calls ++ positionCalls sampleOpen (-1 * 8) 1 ++
        (List.range (min [0x48, 0x49].length ((16 : Int) - -1).toNat)).flatMap
          (smallGlyphCalls sampleOpen [0x48, 0x49])) ∧
    (∃ st', oledWriteString okTransport sampleOpen (-1) 1 [0x48, 0x49] 1 = some (st', 0) ∧
      st'.calls = sampleOpen.calls ++
        (List.range (min [0x48, 0x49].length ((8 : Int) - -1).toNat)).flatMap
          (largeGlyphCalls sampleOpen (-1 * 16) 1 [0x48, 0x49])) :=
  ⟨by decide,
   (oledWriteString_clamp okTransport sampleOpen (-1) 1 [0x48, 0x49] (by decide) (by decide)
     (by decide) (by decide)).2.1.2 (by decide) (by decide),
   ((oledWriteString_clamp okTransport sampleOpen (-1) 1 [0x48, 0x49] (by decide) (by decide)
     (by decide) (by decide)).2.2 1 (by decide)).2 (by decide) (by decide)⟩

/-! ### `RotateFont90`, 8x8 pass -/

theorem and_two_pow_ne_zero (v j : Nat) : (v &&& 2 ^ j ≠ 0) ↔ v.testBit j = true := by
  constructor
  · intro h
    obtain ⟨i, hi⟩ := Nat.ne_zero_implies_bit_true h
    rw [Nat.testBit_and, Nat.testBit_two_pow] at hi
    simp only [Bool.and_eq_true, decide_eq_true_eq] at hi
    rw [hi.2]
    exact hi.1
  · intro h hz
    have : (v &&& 2 ^ j).testBit j = true := by
      rw [Nat.testBit_and, Nat.testBit_two_pow, h]
      simp
    rw [hz] at this
    simp at this

theorem rotateBits_eq_shiftIn (s : Nat → Nat) (ucMask : Nat) :
    rotateBits s ucMask =
      List.foldl shiftIn 0 ((List.range 8).map (fun x => decide (s x &&& ucMask ≠ 0))) := by
  have hr : List.range 8 = [0, 1, 2, 3, 4, 5, 6, 7] := by decide
  unfold rotateBits
  rw [hr]
  simp only [List.foldl_cons, List.foldl_nil, List.map_cons, List.map_nil, shiftIn,
    decide_eq_true_eq]

theorem shiftIn8_testBit (b0 b1 b2 b3 b4 b5 b6 b7 : Bool) (r : Fin 8) :
    (List.foldl shiftIn 0 [b0, b1, b2, b3, b4, b5, b6, b7]).testBit r.val =
      [b0, b1, b2, b3, b4, b5, b6, b7].getD r.val false := by
  revert b0 b1 b2 b3 b4 b5 b6 b7 r
  decide

theorem shiftIn8_lt (b0 b1 b2 b3 b4 b5 b6 b7 : Bool) :
    List.foldl shiftIn 0 [b0, b1, b2, b3, b4, b5, b6, b7] < 256 := by
  revert b0 b1 b2 b3 b4 b5 b6 b7
  decide

/-- Every bit of the byte built by the innermost loop for the mask `2 ^ j`. -/
theorem rotateBits_testBit (s : Nat → Nat) (j r : Nat) :
    (rotateBits s (2 ^ j)).testBit r = (decide (r < 8) && (s r).testBit j) := by
  have hr : List.range 8 = [0, 1, 2, 3, 4, 5, 6, 7] := by decide
  rw [rotateBits_eq_shiftIn, hr]
  simp only [List.map_cons, List.map_nil]
  by_cases h : r < 8
  · have key := shiftIn8_testBit (decide (s 0 &&& 2 ^ j ≠ 0)) (decide (s 1 &&& 2 ^ j ≠ 0))
      (decide (s 2 &&& 2 ^ j ≠ 0)) (decide (s 3 &&& 2 ^ j ≠ 0)) (decide (s 4 &&& 2 ^ j ≠ 0))
      (decide (s 5 &&& 2 ^ j ≠ 0)) (decide (s 6 &&& 2 ^ j ≠ 0)) (decide (s 7 &&& 2 ^ j ≠ 0))
      ⟨r, h⟩
    simp only [] at key
    rw [key]
    have hb : ∀ x, decide (s x &&& 2 ^ j ≠ 0) = (s x).testBit j := by
      intro x
      by_cases hx : (s x).testBit j = true
      · rw [hx, decide_eq_true_eq]
        exact (and_two_pow_ne_zero _ _).mpr hx
      · have hx' : (s x).testBit j = false := by simpa using hx
        rw [hx', decide_eq_false_iff_not]
        exact fun hn => hx ((and_two_pow_ne_zero _ _).mp hn)
    simp only [hb, h, decide_True, Bool.true_and]
    interval_cases r <;> rfl
  · have hlt := shiftIn8_lt (decide (s 0 &&& 2 ^ j ≠ 0)) (decide (s 1 &&& 2 ^ j ≠ 0))
      (decide (s 2 &&& 2 ^ j ≠ 0)) (decide (s 3 &&& 2 ^ j ≠ 0)) (decide (s 4 &&& 2 ^ j ≠ 0))
      (decide (s 5 &&& 2 ^ j ≠ 0)) (decide (s 6 &&& 2 ^ j ≠ 0)) (decide (s 7 &&& 2 ^ j ≠ 0))
    have h256 : (256 : Nat) = 2 ^ 8 := by norm_num
    rw [h256] at hlt
    rw [Nat.testBit_lt_two_pow
      (lt_of_lt_of_le hlt (Nat.pow_le_pow_right (by norm_num) (by omega)))]
    simp [h]

/-- The `y` loop of the 8x8 case stores `rotateBits s (2 ^ (7 - j))` at `ucTemp[j]`
for `j < 8` and leaves the rest of `ucTemp` alone. -/
theorem rotateRows8_snd (s ucTemp : Nat → Nat) (j : Nat) :
    (rotateRows8 s ucTemp).2 j = if j < 8 then rotateBits s (2 ^ (7 - j)) else ucTemp j := by
  have hr : List.range 8 = [0, 1, 2, 3, 4, 5, 6, 7] := by decide
  unfold rotateRows8
  rw [hr]
  simp only [List.foldl_cons, List.foldl_nil]
  by_cases h : j < 8
  · rw [if_pos h]
    interval_cases j <;> simp [Function.update]
  · rw [if_neg h]
    have : j ≠ 7 ∧ j ≠ 6 ∧ j ≠ 5 ∧ j ≠ 4 ∧ j ≠ 3 ∧ j ≠ 2 ∧ j ≠ 1 ∧ j ≠ 0 := by omega
    simp [Function.update, this]

theorem readBytes_getD (mem : Nat → Nat) (off n k : Nat) (hk : k < n) :
    (readBytes mem off n).getD k 0 = mem (off + k) := by
  simp [readBytes, List.getD, hk]

/-- Font table after one iteration of the 8x8 glyph loop. -/
theorem rotateGlyph8_fst (p : (Nat → Nat) × (Nat → Nat)) (i a : Nat) :
    (rotateGlyph8 p i).1 a =
      if i * 8 ≤ a ∧ a < i * 8 + 8 then
        rotateBits (fun x => p.1 (i * 8 + x)) (2 ^ (7 - (a - i * 8)))
      else p.1 a := by
  unfold rotateGlyph8
  simp only [memcpy, readBytes_length]
  by_cases h : i * 8 ≤ a ∧ a < i * 8 + 8
  · rw [if_pos h, if_pos h, readBytes_getD _ _ _ _ (by omega), rotateRows8_snd,
      Nat.zero_add, if_pos (by omega)]
  · rw [if_neg h, if_neg h]

/-- Font table after the first `n` iterations of the 8x8 glyph loop: the glyphs
below `n` are rotated, each from its own original bytes; the rest is untouched. -/
theorem rotate8x8_firstGlyphs (ucFont ucTemp : Nat → Nat) (n a : Nat) :
    ((List.range n).foldl rotateGlyph8 (ucFont, ucTemp)).1 a =
      if a < n * 8 then
        rotateBits (fun x => ucFont (a / 8 * 8 + x)) (2 ^ (7 - a % 8))
      else ucFont a := by
  induction n generalizing a with
  | zero => simp
  | succ k ih =>
    rw [List.range_succ, List.foldl_append]
    simp only [List.foldl_cons, List.foldl_nil]
    rw [rotateGlyph8_fst]
    by_cases h : k * 8 ≤ a ∧ a < k * 8 + 8
    · rw [if_pos h, if_pos (by omega)]
      have hq : a / 8 = k := by omega
      have hm : a - k * 8 = a % 8 := by omega
      rw [hq, hm]
      congr 1
      funext x
      rw [ih, if_neg (by omega)]
    · rw [if_neg h, ih]
      by_cases h2 : a < k * 8
      · rw [if_pos h2, if_pos (by omega)]
      · rw [if_neg h2, if_neg (by omega)]

/-- The 16x32 pass leaves the bytes below offset 9728 alone. -/
theorem rotate16x32_low (p : (Nat → Nat) × (Nat → Nat)) (a : Nat) (ha : a < 9728) :
    (rotate16x32 p).1 a = p.1 a := by
  unfold rotate16x32
  generalize 128 = n
  induction n with
  | zero => simp
  | succ k ih =>
    rw [List.range_succ, List.foldl_append]
    simp only [List.foldl_cons, List.foldl_nil]
    rw [← ih]
    unfold rotateGlyph16
    simp only []
    rw [memcpy_outside _ _ _ _ (by omega)]

/-- C6: for every font table and every small glyph `g < 256`, after the 8x8 pass
(run alone from any scratch buffer, or as part of `RotateFont90`) bit `r` of output
byte `k` of the glyph equals bit `7 - k` of its original input byte `r`, for all
`k, r < 8`.  In particular the glyph `01 00 00 00 00 00 00 00` becomes
`00 00 00 00 00 00 00 01`. -/
theorem RotateFont90_glyph8 (ucFont : Nat → Nat) (g : Nat) (hg : g < 256) :
    (∀ ucTemp k r, k < 8 → r < 8 →
      ((rotate8x8 (ucFont, ucTemp)).1 (g * 8 + k)).testBit r
        = (ucFont (g * 8 + r)).testBit (7 - k)) ∧
    (∀ k r, k < 8 → r < 8 →
      (RotateFont90 ucFont (g * 8 + k)).testBit r = (ucFont (g * 8 + r)).testBit (7 - k)) ∧
    (readBytes ucFont (g * 8) 8 = [0x01, 0x00, 0x00, 0x00, 0x00, 0x00, 0x00, 0x00] →
      readBytes (RotateFont90 ucFont) (g * 8) 8
        = [0x00, 0x00, 0x00, 0x00, 0x00, 0x00, 0x00, 0x01]) := by
  have pass : ∀ ucTemp k, k < 8 →
      (rotate8x8 (ucFont, ucTemp)).1 (g * 8 + k)
        = rotateBits (fun x => ucFont (g * 8 + x)) (2 ^ (7 - k)) := by
    intro ucTemp k hk
    unfold rotate8x8
    rw [rotate8x8_firstGlyphs, if_pos (by omega)]
    have hq : (g * 8 + k) / 8 = g := by omega
    have hm : (g * 8 + k) % 8 = k := by omega
    rw [hq, hm]
  have whole : ∀ k, k < 8 →
      RotateFont90 ucFont (g * 8 + k)
        = rotateBits (fun x => ucFont (g * 8 + x)) (2 ^ (7 - k)) := by
    intro k hk
    unfold RotateFont90
    rw [rotate16x32_low _ _ (by omega), pass _ k hk]
  refine ⟨?_, ?_, ?_⟩
  · intro ucTemp k r hk hr
    rw [pass ucTemp k hk, rotateBits_testBit]
    simp [hr]
  · intro k r hk hr
    rw [whole k hk, rotateBits_testBit]
    simp [hr]
  · intro hin
    have hb : ∀ x, x < 8 → ucFont (g * 8 + x) = if x = 0 then 1 else 0 := by
      intro x hx
      have := congrArg (fun l => l.getD x 0) hin
      simp only [readBytes_getD _ _ _ _ hx] at this
      rw [this]
      interval_cases x <;> rfl
    have hout : ∀ k, k < 8 → RotateFont90 ucFont (g * 8 + k) = if k = 7 then 1 else 0 := by
      intro k hk
      rw [whole k hk]
      apply Nat.eq_of_testBit_eq
      intro r
      rw [rotateBits_testBit]
      by_cases hr : r < 8
      · simp only [hr, decide_True, Bool.true_and, hb r hr]
        interval_cases k <;> interval_cases r <;> decide
      · have hr' : 8 ≤ r := by omega
        simp only [hr, decide_False, Bool.false_and]
        have h1 : Nat.testBit 1 r = false :=
          Nat.testBit_lt_two_pow (lt_of_lt_of_le (by norm_num : 1 < 2 ^ 8)
            (Nat.pow_le_pow_right (by norm_num) hr'))
        interval_cases k <;> simp [h1]
    have hr8 : List.range 8 = [0, 1, 2, 3, 4, 5, 6, 7] := by decide
    simp only [readBytes, hr8, List.map_cons, List.map_nil]
    rw [hout 0 (by norm_num), hout 1 (by norm_num), hout 2 (by norm_num), hout 3 (by norm_num),
      hout 4 (by norm_num), hout 5 (by norm_num), hout 6 (by norm_num), hout 7 (by norm_num)]
    rfl

/-- Witness for C6: glyph `0x48` of the table `unitFont`. -/
theorem RotateFont90_glyph8_witness :
    (0x48 : Nat) < 256 ∧
    readBytes (RotateFont90 unitFont) (0x48 * 8) 8
      = [0x00, 0x00, 0x00, 0x00, 0x00, 0x00, 0x00, 0x01] :=
  ⟨by decide, (RotateFont90_glyph8 unitFont 0x48 (by decide)).2.2 (by decide)⟩

/-! ### Session life cycle -/

/-- C7 (failing input): the hardware layer initialises and the bus opens (handle 3)
but the init command transfer fails.  `oledInit` returns 1 and leaves
`fHandle = 3`, so the session counts as open: `oledFill`, `oledSetPixel`,
`oledWriteString` and `oledSetContrast` afterwards all return 0 instead of -1. -/
theorem oledInit_failure_leaves_session_open :
    (initialDriver unitFont).fHandle = -1 ∧
    (oledInit deadBusTransport (initialDriver unitFont) 0 0x3c 0 0 0 0 0).2 = 1 ∧
    (oledInit deadBusTransport (initialDriver unitFont) 0 0x3c 0 0 0 0 0).1.fHandle = 3 ∧
    (oledFill deadBusTransport
      (oledInit deadBusTransport (initialDriver unitFont) 0 0x3c 0 0 0 0 0).1 0x00).map
        (fun r => r.2) = some 0 ∧
    (oledSetPixel deadBusTransport
      (oledInit deadBusTransport (initialDriver unitFont) 0 0x3c 0 0 0 0 0).1 0 0 1).map
        (fun r => r.2) = some 0 ∧
    (oledWriteString deadBusTransport
      (oledInit deadBusTransport (initialDriver unitFont) 0 0x3c 0 0 0 0 0).1 0 0 [0x48] 0).map
        (fun r => r.2) = some 0 ∧
    (oledSetContrast deadBusTransport
      (oledInit deadBusTransport (initialDriver unitFont) 0 0x3c 0 0 0 0 0).1 0x7f).2 = 0 := by
  refine ⟨by decide, by decide, by decide, ?_, by decide, by decide, by decide⟩
  set_option maxRecDepth 8000 in decide

/-- What the guards test is the handle: while `fHandle < 0`, `oledFill`,
`oledSetPixel`, `oledWriteString` and `oledSetContrast` return -1 for every argument
and leave the whole state (shadow, cursor, call log) unchanged, and `oledShutdown`
changes nothing.  `fHandle < 0` holds at process start and after `oledShutdown`, so
a second `oledShutdown` has no further effect.  It need not hold after an
`oledInit` that failed. -/
theorem no_session_rejects (tp : Transport) :
    (∀ st : Driver, st.fHandle < 0 →
      (∀ p, oledFill tp st p = some (st, -1)) ∧
      (∀ x y c, oledSetPixel tp st x y c = some (st, -1)) ∧
      (∀ x y szMsg bLarge, oledWriteString tp st x y szMsg bLarge = some (st, -1)) ∧
      (∀ c, oledSetContrast tp st c = (st, -1)) ∧
      oledShutdown tp st = st) ∧
    (∀ ucFont, (initialDriver ucFont).fHandle < 0) ∧
    (∀ st : Driver, (oledShutdown tp st).fHandle < 0) ∧
    (∀ st : Driver, oledShutdown tp (oledShutdown tp st) = oledShutdown tp st) := by
  have hclosed : ∀ st : Driver, (oledShutdown tp st).fHandle < 0 := by
    intro st
    unfold oledShutdown
    split
    · simp
    · omega
  have hnop : ∀ st : Driver, st.fHandle < 0 → oledShutdown tp st = st := by
    intro st h
    unfold oledShutdown
    rw [if_neg (by omega)]
  refine ⟨?_, ?_, hclosed, fun st => hnop _ (hclosed st)⟩
  · intro st h
    refine ⟨?_, ?_, ?_, ?_, hnop st h⟩
    · intro p
      unfold oledFill
      rw [if_pos h]
    · intro x y c
      unfold oledSetPixel
      rw [if_pos h]
    · intro x y szMsg bLarge
      unfold oledWriteString
      rw [if_pos h]
    · intro c
      unfold oledSetContrast
      rw [if_pos h]
  · intro ucFont
    simp [initialDriver]

/-- The guards at process start. -/
theorem no_session_rejects_witness :
    (initialDriver unitFont).fHandle < 0 ∧
    oledFill okTransport (initialDriver unitFont) 0xff = some (initialDriver unitFont, -1) ∧
    oledSetPixel okTransport (initialDriver unitFont) 5 10 1
      = some (initialDriver unitFont, -1) ∧
    oledWriteString okTransport (initialDriver unitFont) 0 0 [0x48, 0x49] 0
      = some (initialDriver unitFont, -1) ∧
    oledSetContrast okTransport (initialDriver unitFont) 0x7f = (initialDriver unitFont, -1) ∧
    oledShutdown okTransport (initialDriver unitFont) = initialDriver unitFont :=
  ⟨by decide,
   ((no_session_rejects okTransport).1 (initialDriver unitFont) (by decide)).1 0xff,
   ((no_session_rejects okTransport).1 (initialDriver unitFont) (by decide)).2.1 5 10 1,
   ((no_session_rejects okTransport).1 (initialDriver unitFont) (by decide)).2.2.1 0 0
     [0x48, 0x49] 0,
   ((no_session_rejects okTransport).1 (initialDriver unitFont) (by decide)).2.2.2.1 0x7f,
   ((no_session_rejects okTransport).1 (initialDriver unitFont) (by decide)).2.2.2.2⟩

/-- C9 (failing input): `oledInit(0, 0, 0, 0, 1, 17, 27)`, SPI mode, at process
start on a bus where the library initialises, both pins register and the bus opens
(handle 3) but every write fails.  The call issues 8 library calls and returns 1,
so no `oledInit` has succeeded and no session is open.  Yet the handle is left at
3, and afterwards `oledSetPixel(5, 10, 1)` returns 0, sends three position commands
and one data byte (each after a write of the D/C pin) and sets shadow byte 133 to
`0x04`; `oledSetContrast(0x7f)` returns 0 and sends `81 7F`; and `oledShutdown`
sends `AE`, closes the bus, shuts the library down and sets the handle to -1. -/
theorem failed_init_session_accepts_calls :
    (initialDriver unitFont).fHandle = -1 ∧
    (oledInit deadBusTransport (initialDriver unitFont) 0 0 0 0 1 17 27).2 = 1 ∧
    (oledInit deadBusTransport (initialDriver unitFont) 0 0 0 0 1 17 27).1.calls.length = 8 ∧
    (oledInit deadBusTransport (initialDriver unitFont) 0 0 0 0 1 17 27).1.fHandle = 3 ∧
    (oledSetPixel deadBusTransport
      (oledInit deadBusTransport (initialDriver unitFont) 0 0 0 0 1 17 27).1 5 10 1).map
        (fun r => (r.2, r.1.ucScreen 133, r.1.calls.drop 8)) =
      some (0, 0x04,
        [Event.aioWriteGPIO 17 0, Event.aioWriteSPI 3 [0xb1],
         Event.aioWriteGPIO 17 0, Event.aioWriteSPI 3 [0x05],
         Event.aioWriteGPIO 17 0, Event.aioWriteSPI 3 [0x10],
         Event.aioWriteGPIO 17 1, Event.aioWriteSPI 3 [0x04]]) ∧
    ((oledSetContrast deadBusTransport
        (oledInit deadBusTransport (initialDriver unitFont) 0 0 0 0 1 17 27).1 0x7f).2,
     (oledSetContrast deadBusTransport
        (oledInit deadBusTransport (initialDriver unitFont) 0 0 0 0 1 17 27).1 0x7f).1.calls.drop 8)
      = (0, [Event.aioWriteGPIO 17 0, Event.aioWriteSPI 3 [0x81, 0x7f]]) ∧
    ((oledShutdown deadBusTransport
        (oledInit deadBusTransport (initialDriver unitFont) 0 0 0 0 1 17 27).1).fHandle,
     (oledShutdown deadBusTransport
        (oledInit deadBusTransport (initialDriver unitFont) 0 0 0 0 1 17 27).1).calls.drop 8)
      = (-1, [Event.aioWriteGPIO 17 0, Event.aioWriteSPI 3 [0xae], Event.aioCloseSPI 3,
              Event.aioShutdown]) := by
  refine ⟨by decide, by decide, by decide, by decide, by decide, by decide, by decide⟩

/-- Evaluation of `oledInit` in I2C mode without flip or invert on a transport
whose calls succeed, from a state with an empty call log. -/
theorem oledInit_i2c_eq (tp : Transport) (st : Driver) (iChannel iAddr iDC iReset : Int)
    (hok : AllSucceed tp) (hc : st.calls = []) :
    oledInit tp st iChannel iAddr 0 0 0 iDC iReset =
      ({ st with
         ucFont := RotateFont90 st.ucFont
         fHandle := tp [Event.aioInit, Event.aioOpenI2C iChannel iAddr]
         bSPIMode := 0
         calls := [Event.aioInit, Event.aioOpenI2C iChannel iAddr,
           Event.aioWriteI2C (tp [Event.aioInit, Event.aioOpenI2C iChannel iAddr]) 0x00 initbuf] },
       0) := by
  have h1 : tp [Event.aioInit] ≠ 0 := hok [] Event.aioInit
  have h2 : 0 ≤ tp [Event.aioInit, Event.aioOpenI2C iChannel iAddr] :=
    hok [Event.aioInit] (Event.aioOpenI2C iChannel iAddr)
  have h3 : 0 < tp [Event.aioInit, Event.aioOpenI2C iChannel iAddr,
      Event.aioWriteI2C (tp [Event.aioInit, Event.aioOpenI2C iChannel iAddr]) 0x00 initbuf] :=
    hok [Event.aioInit, Event.aioOpenI2C iChannel iAddr]
      (Event.aioWriteI2C (tp [Event.aioInit, Event.aioOpenI2C iChannel iAddr]) 0x00 initbuf)
  have h2' : tp [Event.aioInit, Event.aioOpenI2C iChannel iAddr] ≠ -1 := by omega
  have h3' : ¬ tp [Event.aioInit, Event.aioOpenI2C iChannel iAddr,
      Event.aioWriteI2C (tp [Event.aioInit, Event.aioOpenI2C iChannel iAddr]) 0x00 initbuf] ≤ 0 := by
    omega
  unfold oledInit oledInitOpen WriteCommand
  simp [hc, h1, h2', h3']

theorem cmdCalls_i2c (st : Driver) (pData : List Nat) (hm : st.bSPIMode = 0) :
    cmdCalls st pData = [Event.aioWriteI2C st.fHandle 0x00 pData] := by
  simp [cmdCalls, hm]

theorem dataCalls_i2c (st : Driver) (pData : List Nat) (hm : st.bSPIMode = 0) :
    dataCalls st pData = [Event.aioWriteI2C st.fHandle 0x40 pData] := by
  simp [dataCalls, hm]

/-- Library calls of `oledShutdown` on an open session. -/
theorem oledShutdown_calls (tp : Transport) (st : Driver) (hopen : 0 ≤ st.fHandle) :
    (oledShutdown tp st).calls =
      st.calls ++ cmdCalls st [0xae] ++
        [if st.bSPIMode ≠ 0 then Event.aioCloseSPI st.fHandle else Event.aioCloseI2C st.fHandle,
         Event.aioShutdown] := by
  unfold oledShutdown
  rw [if_pos hopen]
  simp only [WriteCommand_fst]
  split <;> simp

/-- C8: on a transport whose calls all succeed, starting from process start,
`oledInit` (I2C, no flip, no invert), `oledFill(0x00)`, `oledWriteString(0, 0, "HI", 0)`
and `oledShutdown()` all succeed and the complete log of library calls is: the
hardware-layer initialisation and the bus open returning handle `h`; one command
transfer of the 21 bytes of `initbuf`; for each page 0 to 7 the commands `B0|page`,
`00`, `10` and one data transfer of 128 zero bytes; the commands `B0`, `00`, `10`;
two 8-byte data transfers holding the rotated glyphs of `H` and `I`; the command
`AE`; the bus close; the hardware-layer shutdown. -/
theorem endToEnd_trace (tp : Transport) (ucFont : Nat → Nat) (iChannel iAddr iDC iReset : Int)
    (hok : AllSucceed tp) :
    ∃ h s1 s2 s3, h = tp [Event.aioInit, Event.aioOpenI2C iChannel iAddr] ∧
      oledInit tp (initialDriver ucFont) iChannel iAddr 0 0 0 iDC iReset = (s1, 0) ∧
      oledFill tp s1 0x00 = some (s2, 0) ∧
      oledWriteString tp s2 0 0 [0x48, 0x49] 0 = some (s3, 0) ∧
      (oledShutdown tp s3).calls =
        [Event.aioInit, Event.aioOpenI2C iChannel iAddr,
          Event.aioWriteI2C h 0x00
            [0xae, 0xa8, 0x3f, 0xd3, 0x00, 0x40, 0xa1, 0xc8, 0xda, 0x12, 0x81, 0xff, 0xa4, 0xa6,
             0xd5, 0x80, 0x8d, 0x14, 0xaf, 0x20, 0x02]] ++
        (List.range 8).flatMap (fun page =>
          [Event.aioWriteI2C h 0x00 [0xb0 + page], Event.aioWriteI2C h 0x00 [0x00],
           Event.aioWriteI2C h 0x00 [0x10],
           Event.aioWriteI2C h 0x40 (List.replicate 128 0x00)]) ++
        [Event.aioWriteI2C h 0x00 [0xb0], Event.aioWriteI2C h 0x00 [0x00],
         Event.aioWriteI2C h 0x00 [0x10],
         Event.aioWriteI2C h 0x40 (readBytes (RotateFont90 ucFont) (0x48 * 8) 8),
         Event.aioWriteI2C h 0x40 (readBytes (RotateFont90 ucFont) (0x49 * 8) 8),
         Event.aioWriteI2C h 0x00 [0xae],
         Event.aioCloseI2C h, Event.aioShutdown] := by
  have h2 : 0 ≤ tp [Event.aioInit, Event.aioOpenI2C iChannel iAddr] :=
    hok [Event.aioInit] (Event.aioOpenI2C iChannel iAddr)
  obtain ⟨s1, hs1, hf, hm, hfont, hcalls⟩ : ∃ s1 : Driver,
      oledInit tp (initialDriver ucFont) iChannel iAddr 0 0 0 iDC iReset = (s1, 0) ∧
      s1.fHandle = tp [Event.aioInit, Event.aioOpenI2C iChannel iAddr] ∧ s1.bSPIMode = 0 ∧
      s1.ucFont = RotateFont90 ucFont ∧
      s1.calls = [Event.aioInit, Event.aioOpenI2C iChannel iAddr,
        Event.aioWriteI2C (tp [Event.aioInit, Event.aioOpenI2C iChannel iAddr]) 0x00 initbuf] :=
    ⟨_, oledInit_i2c_eq tp (initialDriver ucFont) iChannel iAddr iDC iReset hok rfl,
      rfl, rfl, by simp only [initialDriver], rfl⟩
  have hopen1 : 0 ≤ s1.fHandle := by rw [hf]; exact h2
  have hw := oledWriteString_small_eq tp (fillLoopState s1 0x00 8) 0 0 [0x48, 0x49] hopen1
    (by norm_num) (by norm_num)
  refine ⟨_, s1, _, _, rfl, hs1, oledFill_eq tp s1 0x00 hopen1, hw, ?_⟩
  have hr2 : List.range 2 = [0, 1] := by decide
  have hmin : min [0x48, 0x49].length (16 - 0) = 2 := by decide
  have hpos : positionCalls s1 (((0 : Nat) : Int) * 8) ((0 : Nat) : Int)
      = cmdCalls s1 [0xb0] ++ cmdCalls s1 [0x00] ++ cmdCalls s1 [0x10] :=
    positionCalls_col0 s1 0 (by norm_num)
  rw [oledSetPosition_eq, oledShutdown_calls tp _ (by exact hopen1)]
  show (s1.calls ++ (List.range 8).flatMap (fun page =>
        cmdCalls s1 [0xb0 + page] ++ cmdCalls s1 [0x00] ++ cmdCalls s1 [0x10] ++
          dataCalls s1 (List.replicate 128 0x00)) ++
      positionCalls s1 (((0 : Nat) : Int) * 8) ((0 : Nat) : Int)) ++
      (List.range (min [0x48, 0x49].length (16 - 0))).flatMap (fun i =>
        dataCalls s1 (glyph8 s1.ucFont [0x48, 0x49] i)) ++
      cmdCalls s1 [0xae] ++
      [if s1.bSPIMode ≠ 0 then Event.aioCloseSPI s1.fHandle else Event.aioCloseI2C s1.fHandle,
       Event.aioShutdown] = _
  rw [hpos, hmin, hr2]
  simp only [cmdCalls_i2c _ _ hm, dataCalls_i2c _ _ hm, hm, hf, hfont, hcalls, glyph8,
    List.flatMap_cons, List.flatMap_nil, ne_eq, not_true_eq_false, if_false,
    List.append_assoc, List.cons_append, List.nil_append, List.append_nil, initbuf]
  rfl

/-- Witness for C8: the transport on which every call returns 1. -/
theorem endToEnd_trace_witness :
    AllSucceed okTransport ∧
    ∃ h s1 s2 s3, h = okTransport [Event.aioInit, Event.aioOpenI2C 0 0x3c] ∧
      oledInit okTransport (initialDriver unitFont) 0 0x3c 0 0 0 0 0 = (s1, 0) ∧
      oledFill okTransport s1 0x00 = some (s2, 0) ∧
      oledWriteString okTransport s2 0 0 [0x48, 0x49] 0 = some (s3, 0) ∧
      (oledShutdown okTransport s3).calls =
        [Event.aioInit, Event.aioOpenI2C 0 0x3c,
          Event.aioWriteI2C h 0x00
            [0xae, 0xa8, 0x3f, 0xd3, 0x00, 0x40, 0xa1, 0xc8, 0xda, 0x12, 0x81, 0xff, 0xa4, 0xa6,
             0xd5, 0x80, 0x8d, 0x14, 0xaf, 0x20, 0x02]] ++
        (List.range 8).flatMap (fun page =>
          [Event.aioWriteI2C h 0x00 [0xb0 + page], Event.aioWriteI2C h 0x00 [0x00],
           Event.aioWriteI2C h 0x00 [0x10],
           Event.aioWriteI2C h 0x40 (List.replicate 128 0x00)]) ++
        [Event.aioWriteI2C h 0x00 [0xb0], Event.aioWriteI2C h 0x00 [0x00],
         Event.aioWriteI2C h 0x00 [0x10],
         Event.aioWriteI2C h 0x40 (readBytes (RotateFont90 unitFont) (0x48 * 8) 8),
         Event.aioWriteI2C h 0x40 (readBytes (RotateFont90 unitFont) (0x49 * 8) 8),
         Event.aioWriteI2C h 0x00 [0xae],
         Event.aioCloseI2C h, Event.aioShutdown] :=
  ⟨fun c e => by cases e <;> simp [callSucceeded, okTransport],
   endToEnd_trace okTransport unitFont 0 0x3c 0 0
     (fun c e => by cases e <;> simp [callSucceeded, okTransport])⟩

/-! ### Shadow and controller -/

/-- C10 (failing input): on the open sample session `oledWriteString(0, 6, "A", 1)`
(large font, row 6 of the documented rows 0 to 7) has no defined result.  Its third
strip is positioned with page command `0xB8`, which is none of the page selects
`B0` to `B7` of the 8-page controller, and with the cursor at 1024, so that the
16-byte copy into the shadow starts one past the last byte of `ucScreen`. -/
theorem oledWriteString_large_row6_overflows :
    (oledWriteString okTransport sampleOpen 0 6 [0x41] 1).isNone = true ∧
    (oledSetPosition okTransport sampleOpen (0 * 16 + 0 * 16) (6 + 2)).iScreenOffset = 1024 ∧
    (oledSetPosition okTransport sampleOpen (0 * 16 + 0 * 16) (6 + 2)).calls =
      [Event.aioWriteI2C 3 0x00 [0xb8], Event.aioWriteI2C 3 0x00 [0x00],
       Event.aioWriteI2C 3 0x00 [0x10]] ∧
    (WriteData okTransport (oledSetPosition okTransport sampleOpen (0 * 16 + 0 * 16) (6 + 2))
      (readBytes sampleOpen.ucFont (9728 + 0x41 * 64 + 32) 16)).isNone = true := by
  refine ⟨by decide, by decide, by decide, by decide⟩

theorem ctrlReplay_append (iDCPin : Int) (s : Int × Controller) (l1 l2 : List Event) :
    ctrlReplay iDCPin s (l1 ++ l2) = ctrlReplay iDCPin (ctrlReplay iDCPin s l1) l2 := by
  simp [ctrlReplay, List.foldl_append]

/-- A command transfer of the driver reaches the controller as command bytes. -/
theorem ctrlReplay_cmdCalls (st : Driver) (s : Int × Controller) (pData : List Nat) :
    (ctrlReplay st.iDCPin s (cmdCalls st pData)).2 = pData.foldl ctrlCommand s.2 := by
  unfold cmdCalls ctrlReplay
  split <;> simp [ctrlReceive]

/-- A data transfer of the driver reaches the controller as data bytes. -/
theorem ctrlReplay_dataCalls (st : Driver) (s : Int × Controller) (pData : List Nat) :
    (ctrlReplay st.iDCPin s (dataCalls st pData)).2 = pData.foldl ctrlData s.2 := by
  unfold dataCalls ctrlReplay
  split <;> simp [ctrlReceive]

theorem colLowByte (x : Nat) (hx : x < 128) :
    toUChar (Int.lor 0x00 (Int.land (x : Int) 0xf)) = x % 16 := by
  interval_cases x <;> rfl

theorem colHighByte (x : Nat) (hx : x < 128) :
    toUChar (Int.lor 0x10 (Int.land ((x : Int) >>> (4 : Nat)) 0xf)) = 0x10 + x / 16 := by
  interval_cases x <;> rfl

/-- The three position commands for a column `x < 128` and a page `y < 8`. -/
theorem positionCalls_inRange (st : Driver) (x y : Nat) (hx : x < 128) (hy : y < 8) :
    positionCalls st x y =
      cmdCalls st [0xb0 + y] ++ cmdCalls st [x % 16] ++ cmdCalls st [0x10 + x / 16] := by
  unfold positionCalls
  rw [pageByte y hy, colLowByte x hx, colHighByte x hx]

theorem ctrlCommand_page (c : Controller) (y : Nat) (hy : y < 8) :
    ctrlCommand c (0xb0 + y) = { c with page := y } := by
  have h : 0xb0 + y - 0xb0 = y := by omega
  unfold ctrlCommand
  rw [if_pos (by omega), h]

theorem ctrlCommand_low (c : Controller) (n : Nat) (hn : n < 16) :
    ctrlCommand c n = { c with column := c.column / 16 * 16 + n } := by
  unfold ctrlCommand
  rw [if_neg (by omega), if_pos (by omega)]

theorem ctrlCommand_high (c : Controller) (n : Nat) (hn : n < 16) :
    ctrlCommand c (0x10 + n) = { c with column := n * 16 + c.column % 16 } := by
  have h : 0x10 + n - 0x10 = n := by omega
  unfold ctrlCommand
  rw [if_neg (by omega), if_neg (by omega), if_pos (by omega), h]

/-- After the three position commands the controller address is `(y, x)`. -/
theorem ctrlReplay_positionCalls (st : Driver) (s : Int × Controller) (x y : Nat)
    (hx : x < 128) (hy : y < 8) :
    (ctrlReplay st.iDCPin s (positionCalls st x y)).2 = { s.2 with page := y, column := x } := by
  rw [positionCalls_inRange st x y hx hy, ctrlReplay_append, ctrlReplay_append,
    ctrlReplay_cmdCalls, ctrlReplay_cmdCalls, ctrlReplay_cmdCalls]
  simp only [List.foldl_cons, List.foldl_nil]
  rw [ctrlCommand_page s.2 y hy, ctrlCommand_low _ (x % 16) (by omega),
    ctrlCommand_high _ (x / 16) (by omega)]
  simp only [Controller.mk.injEq, true_and, and_true]
  omega

/-- RAM and address after a run of data bytes that stays on the current page. -/
theorem foldl_ctrlData (d : List Nat) (c : Controller) (hp : c.page < 8)
    (hfit : c.column + d.length ≤ 128) :
    d.foldl ctrlData c =
      { c with
        column := c.column + d.length
        ram := fun a =>
          if c.page * 128 + c.column ≤ a ∧ a < c.page * 128 + c.column + d.length then
            some (d.getD (a - (c.page * 128 + c.column)) 0)
          else c.ram a } := by
  induction d generalizing c with
  | nil =>
    cases c
    simp only [List.foldl_nil, List.length_nil, Nat.add_zero, Controller.mk.injEq, true_and]
    funext a
    rw [if_neg (by omega)]
  | cons b t ih =>
    simp only [List.length_cons] at hfit
    rw [List.foldl_cons, ih (ctrlData c b) hp (by simp only [ctrlData]; omega)]
    simp only [ctrlData, List.length_cons]
    rw [if_pos ⟨hp, by omega⟩]
    congr 1
    · omega
    · funext a
      by_cases h0 : a = c.page * 128 + c.column
      · subst h0
        rw [if_neg (by omega), if_pos (by omega)]
        simp [Function.update]
      · by_cases h1 : c.page * 128 + c.column < a ∧ a < c.page * 128 + c.column + (t.length + 1)
        · rw [if_pos (by omega), if_pos (by omega)]
          have : a - (c.page * 128 + c.column) = (a - (c.page * 128 + (c.column + 1))) + 1 := by
            omega
          rw [this, List.getD_cons_succ]
        · rw [if_neg (by omega), if_neg (by omega)]
          simp [Function.update, h0]

/-- Copying the same bytes to the shadow and sending them to the controller, at
the same address, keeps the shadow a mirror of the RAM. -/
theorem Mirrors_write (scr0 scr : Nat → Nat) (c : Controller) (d : List Nat)
    (hm : Mirrors scr0 scr c) (hp : c.page < 8) (hfit : c.column + d.length ≤ 128) :
    Mirrors scr0 (memcpy scr (c.page * 128 + c.column) d) (d.foldl ctrlData c) := by
  rw [foldl_ctrlData d c hp hfit]
  intro a ha
  simp only [memcpy]
  by_cases h : c.page * 128 + c.column ≤ a ∧ a < c.page * 128 + c.column + d.length
  · rw [if_pos h, if_pos h]
    constructor
    · intro v hv
      exact Option.some.inj hv
    · intro hn
      simp at hn
  · rw [if_neg h, if_neg h]
    exact hm a ha

/-- A reposition to an in-range `(x, y)` followed by one data transfer that stays
on the page keeps the mirror and leaves the controller right behind the data. -/
theorem Mirrors_burst (st : Driver) (scr0 scr : Nat → Nat) (s : Int × Controller)
    (x y : Nat) (d : List Nat) (hm : Mirrors scr0 scr s.2) (hy : y < 8)
    (hfit : x + d.length ≤ 128) (hd : 0 < d.length) :
    Mirrors scr0 (memcpy scr (y * 128 + x) d)
      (ctrlReplay st.iDCPin s (positionCalls st x y ++ dataCalls st d)).2 ∧
    (ctrlReplay st.iDCPin s (positionCalls st x y ++ dataCalls st d)).2.page = y ∧
    (ctrlReplay st.iDCPin s (positionCalls st x y ++ dataCalls st d)).2.column
      = x + d.length := by
  rw [ctrlReplay_append, ctrlReplay_dataCalls, ctrlReplay_positionCalls st s x y (by omega) hy]
  refine ⟨?_, ?_, ?_⟩
  · exact Mirrors_write scr0 scr { s.2 with page := y, column := x } d hm hy hfit
  · rw [foldl_ctrlData d _ hy hfit]
  · rw [foldl_ctrlData d _ hy hfit]

theorem glyph8_length (ucFont : Nat → Nat) (szMsg : List Nat) (i : Nat) :
    (glyph8 ucFont szMsg i).length = 8 := by
  simp [glyph8, readBytes]

theorem glyph16_length (ucFont : Nat → Nat) (szMsg : List Nat) (i p : Nat) :
    (glyph16 ucFont szMsg i p).length = 16 := by
  simp [glyph16, readBytes]

/-- The page loop of `oledFill` keeps the mirror. -/
theorem fillLoop_mirrors (st : Driver) (p : Nat) (scr0 : Nat → Nat) (s : Int × Controller)
    (hm : Mirrors scr0 st.ucScreen s.2) (k : Nat) (hk : k ≤ 8) :
    Mirrors scr0 (fillLoopState st p k).ucScreen
      (ctrlReplay st.iDCPin s ((List.range k).flatMap (fun page =>
        cmdCalls st [0xb0 + page] ++ cmdCalls st [0x00] ++ cmdCalls st [0x10] ++
          dataCalls st (List.replicate 128 p)))).2 := by
  induction k with
  | zero => simpa [fillLoopState, ctrlReplay] using hm
  | succ j ih =>
    have hpos : positionCalls st ((0 : Nat) : Int) (j : Int)
        = cmdCalls st [0xb0 + j] ++ cmdCalls st [0x00] ++ cmdCalls st [0x10] := by
      rw [positionCalls_inRange st 0 j (by norm_num) (by omega)]
    have hb := Mirrors_burst st scr0 _ _ 0 j (List.replicate 128 p) (ih (by omega))
      (by omega) (by rw [List.length_replicate]) (by rw [List.length_replicate]; norm_num)
    have hsh : (fillLoopState st p (j + 1)).ucScreen
        = memcpy (fillLoopState st p j).ucScreen (j * 128 + 0) (List.replicate 128 p) := by
      simp only [fillLoopState, List.range_succ, List.foldl_append, List.foldl_cons,
        List.foldl_nil, Nat.add_zero]
    have hcalls : (List.range (j + 1)).flatMap (fun page =>
          cmdCalls st [0xb0 + page] ++ cmdCalls st [0x00] ++ cmdCalls st [0x10] ++
            dataCalls st (List.replicate 128 p))
        = (List.range j).flatMap (fun page =>
          cmdCalls st [0xb0 + page] ++ cmdCalls st [0x00] ++ cmdCalls st [0x10] ++
            dataCalls st (List.replicate 128 p)) ++
          (positionCalls st ((0 : Nat) : Int) (j : Int) ++
            dataCalls st (List.replicate 128 p)) := by
      rw [hpos]
      simp only [List.range_succ, List.flatMap_append, List.flatMap_cons, List.flatMap_nil,
        List.append_nil, List.append_assoc]
    rw [hsh, hcalls, ctrlReplay_append]
    exact hb.1

/-- The small-font glyph loop keeps the mirror: the controller, like the cursor,
is right behind the last glyph after each iteration. -/
theorem smallLoop_mirrors (st : Driver) (ucFont : Nat → Nat) (szMsg : List Nat)
    (scr0 scr : Nat → Nat) (s : Int × Controller) (y q : Nat)
    (hm : Mirrors scr0 scr s.2) (hy : y < 8) (hpage : s.2.page = y) (hcol : s.2.column = q)
    (k : Nat) (hfit : q + 8 * k ≤ 128) :
    Mirrors scr0 (smallShadow ucFont szMsg (y * 128 + q) scr k)
      (ctrlReplay st.iDCPin s ((List.range k).flatMap (fun i =>
        dataCalls st (glyph8 ucFont szMsg i)))).2 ∧
    (ctrlReplay st.iDCPin s ((List.range k).flatMap (fun i =>
        dataCalls st (glyph8 ucFont szMsg i)))).2.page = y ∧
    (ctrlReplay st.iDCPin s ((List.range k).flatMap (fun i =>
        dataCalls st (glyph8 ucFont szMsg i)))).2.column = q + 8 * k := by
  induction k with
  | zero => simpa [smallShadow, ctrlReplay] using ⟨hm, hpage, hcol⟩
  | succ j ih =>
    obtain ⟨ihm, ihp, ihc⟩ := ih (by omega)
    simp only [List.range_succ, List.flatMap_append, List.flatMap_cons, List.flatMap_nil,
      List.append_nil, ctrlReplay_append, ctrlReplay_dataCalls]
    have hw := Mirrors_write scr0 _ _ (glyph8 ucFont szMsg j) ihm (by rw [ihp]; exact hy)
      (by rw [ihc, glyph8_length]; omega)
    rw [ihp, ihc] at hw
    refine ⟨?_, ?_, ?_⟩
    · have hsh : smallShadow ucFont szMsg (y * 128 + q) scr (j + 1)
          = memcpy (smallShadow ucFont szMsg (y * 128 + q) scr j) (y * 128 + (q + 8 * j))
              (glyph8 ucFont szMsg j) := by
        simp only [smallShadow, List.range_succ, List.foldl_append, List.foldl_cons,
          List.foldl_nil, Nat.add_assoc]
      rw [hsh]
      exact hw
    · rw [foldl_ctrlData _ _ (by rw [ihp]; exact hy) (by rw [ihc, glyph8_length]; omega)]
      exact ihp
    · rw [foldl_ctrlData _ _ (by rw [ihp]; exact hy) (by rw [ihc, glyph8_length]; omega)]
      simp only [ihc, glyph8_length]
      omega

/-- The large-font glyph loop keeps the mirror. -/
theorem largeLoop_mirrors (st : Driver) (szMsg : List Nat) (scr0 : Nat → Nat)
    (s : Int × Controller) (x y : Nat) (hm : Mirrors scr0 st.ucScreen s.2) (hy : y ≤ 5)
    (k : Nat) (hfit : x + 16 * k ≤ 128) :
    Mirrors scr0 (largeLoopState st szMsg x y k).ucScreen
      (ctrlReplay st.iDCPin s ((List.range k).flatMap (largeGlyphCalls st x y szMsg))).2 := by
  induction k with
  | zero => simpa [largeLoopState, largeShadow, ctrlReplay] using hm
  | succ j ih =>
    have ihm := ih (by omega)
    have hx : (x : Int) + (j : Int) * 16 = ((x + j * 16 : Nat) : Int) := by push_cast; ring
    have hy1 : (y : Int) + 1 = ((y + 1 : Nat) : Int) := by push_cast; ring
    have hy2 : (y : Int) + 2 = ((y + 2 : Nat) : Int) := by push_cast; ring
    have o0 : y * 128 + (x + j * 16) = y * 128 + x + 16 * j := by omega
    have o1 : (y + 1) * 128 + (x + j * 16) = y * 128 + x + 128 + 16 * j := by omega
    have o2 : (y + 2) * 128 + (x + j * 16) = y * 128 + x + 256 + 16 * j := by omega
    have hb0 := Mirrors_burst st scr0 _ _ (x + j * 16) y (glyph16 st.ucFont szMsg j 0) ihm
      (by omega) (by rw [glyph16_length]; omega) (by rw [glyph16_length]; norm_num)
    have hb1 := Mirrors_burst st scr0 _ _ (x + j * 16) (y + 1) (glyph16 st.ucFont szMsg j 1)
      hb0.1 (by omega) (by rw [glyph16_length]; omega) (by rw [glyph16_length]; norm_num)
    have hb2 := Mirrors_burst st scr0 _ _ (x + j * 16) (y + 2) (glyph16 st.ucFont szMsg j 2)
      hb1.1 (by omega) (by rw [glyph16_length]; omega) (by rw [glyph16_length]; norm_num)
    rw [o0, o1, o2] at hb2
    have hsh : (largeLoopState st szMsg x y (j + 1)).ucScreen
        = memcpy (memcpy (memcpy (largeLoopState st szMsg x y j).ucScreen
            (y * 128 + x + 16 * j) (glyph16 st.ucFont szMsg j 0))
            (y * 128 + x + 128 + 16 * j) (glyph16 st.ucFont szMsg j 1))
            (y * 128 + x + 256 + 16 * j) (glyph16 st.ucFont szMsg j 2) := by
      simp only [largeLoopState, largeShadow, List.range_succ, List.foldl_append,
        List.foldl_cons, List.foldl_nil]
    have hcalls : (List.range (j + 1)).flatMap (largeGlyphCalls st x y szMsg)
        = (List.range j).flatMap (largeGlyphCalls st x y szMsg) ++
          (positionCalls st ((x + j * 16 : Nat) : Int) (y : Int) ++
            dataCalls st (glyph16 st.ucFont szMsg j 0)) ++
          (positionCalls st ((x + j * 16 : Nat) : Int) ((y + 1 : Nat) : Int) ++
            dataCalls st (glyph16 st.ucFont szMsg j 1)) ++
          (positionCalls st ((x + j * 16 : Nat) : Int) ((y + 2 : Nat) : Int) ++
            dataCalls st (glyph16 st.ucFont szMsg j 2)) := by
      simp only [List.range_succ, List.flatMap_append, List.flatMap_cons, List.flatMap_nil,
        List.append_nil, largeGlyphCalls, hx, hy1, hy2, List.append_assoc]
    have key := hb2.1
    simp only [← ctrlReplay_append, List.append_assoc] at key
    rw [hsh, hcalls]
    simp only [List.append_assoc]
    exact key

theorem Mirrors_of_ram_eq (scr0 scr : Nat → Nat) (c c' : Controller) (h : c'.ram = c.ram)
    (hm : Mirrors scr0 scr c) : Mirrors scr0 scr c' := by
  intro a ha
  rw [h]
  exact hm a ha

/-- One in-range drawing call on an open session succeeds, only appends to the
call log, and keeps the shadow a mirror of the controller RAM. -/
theorem runCall_mirrors (tp : Transport) (st : Driver) (d : DrawCall) (scr0 : Nat → Nat)
    (s : Int × Controller) (hopen : 0 ≤ st.fHandle) (hin : drawInRange d)
    (hm : Mirrors scr0 st.ucScreen s.2) :
    ∃ st' rc new, runCall tp st d = some (st', rc) ∧ st'.calls = st.calls ++ new ∧
      st'.fHandle = st.fHandle ∧ st'.iDCPin = st.iDCPin ∧
      Mirrors scr0 st'.ucScreen (ctrlReplay st.iDCPin s new).2 := by
  cases d with
  | fill p =>
    exact ⟨_, _, _, oledFill_eq tp st p hopen, rfl, rfl, rfl,
      fillLoop_mirrors st p scr0 s hm 8 (le_refl 8)⟩
  | setPixel x y c =>
    obtain ⟨hx0, hx1, hy0, hy1⟩ := hin
    lift x to ℕ using hx0
    lift y to ℕ using hy0
    have hx : x < 128 := by omega
    have hy : y < 64 := by omega
    have hpg : y >>> 3 < 8 := by
      have : y >>> 3 = y / 8 := by simp [Nat.shiftRight_eq_div_pow]
      omega
    simp only [runCall]
    rw [oledSetPixel_inRange tp st x y c hopen hx hy]
    by_cases h : pixelByte (st.ucScreen ((y >>> 3) * 128 + x)) (y &&& 7) c
        ≠ st.ucScreen ((y >>> 3) * 128 + x)
    · rw [if_pos h]
      refine ⟨_, _, positionCalls st x ((y >>> 3 : Nat) : Int) ++ dataCalls st
        [pixelByte (st.ucScreen ((y >>> 3) * 128 + x)) (y &&& 7) c], rfl, ?_, rfl, rfl, ?_⟩
      · simp only [List.append_assoc]
      · exact (Mirrors_burst st scr0 st.ucScreen s x (y >>> 3) _ hm hpg (by simp; omega)
          (by simp)).1
    · rw [if_neg h]
      exact ⟨st, 0, [], rfl, by simp, rfl, rfl, by simpa [ctrlReplay] using hm⟩
  | writeString x y szMsg bLarge =>
    obtain ⟨hx0, hy0, hr⟩ := hin
    lift x to ℕ using hx0
    lift y to ℕ using hy0
    simp only [runCall]
    by_cases hL : bLarge ≠ 0
    · rw [if_pos hL] at hr
      have hx16 : (x : Int) * 16 = ((x * 16 : Nat) : Int) := by push_cast; ring
      rw [oledWriteString_large_eq tp st x y szMsg bLarge hL hopen (by omega) (by omega)]
      refine ⟨_, _, (List.range (min szMsg.length (8 - x))).flatMap
        (largeGlyphCalls st ((x * 16 : Nat) : Int) y szMsg), rfl, rfl, rfl, rfl, ?_⟩
      exact largeLoop_mirrors st szMsg scr0 s (x * 16) y hm (by omega) _ (by omega)
    · rw [if_neg hL] at hr
      have hz : bLarge = 0 := by
        by_contra h
        exact hL h
      subst hz
      have hx8 : (x : Int) * 8 = ((x * 8 : Nat) : Int) := by push_cast; ring
      rw [oledWriteString_small_eq tp st x y szMsg hopen (by omega) (by omega),
        oledSetPosition_eq, hx8]
      refine ⟨_, _, positionCalls st ((x * 8 : Nat) : Int) y ++
        (List.range (min szMsg.length (16 - x))).flatMap
          (fun i => dataCalls st (glyph8 st.ucFont szMsg i)), rfl, ?_, rfl, rfl, ?_⟩
      · simp only [smallLoopState, List.append_assoc]
        rfl
      · rw [ctrlReplay_append]
        have hpos := ctrlReplay_positionCalls st s (x * 8) y (by omega) (by omega)
        have hm1 : Mirrors scr0 st.ucScreen
            (ctrlReplay st.iDCPin s (positionCalls st ((x * 8 : Nat) : Int) y)).2 :=
          Mirrors_of_ram_eq scr0 _ s.2 _ (by rw [hpos]) hm
        exact (smallLoop_mirrors st st.ucFont szMsg scr0 st.ucScreen _ y (x * 8) hm1
          (by omega) (by rw [hpos]) (by rw [hpos]) _ (by omega)).1

/-- Mirror invariant over sequences: in-range drawing calls on an open session all
succeed, only append to the call log, and keep the shadow a mirror of the RAM of a
controller that observes the appended calls. -/
theorem runCalls_mirrors (tp : Transport) (scr0 : Nat → Nat) (ds : List DrawCall) :
    ∀ (st : Driver) (s : Int × Controller), 0 ≤ st.fHandle →
      (∀ d, d ∈ ds → drawInRange d) → Mirrors scr0 st.ucScreen s.2 →
      ∃ st' new, runCalls tp st ds = some st' ∧ st'.calls = st.calls ++ new ∧
        Mirrors scr0 st'.ucScreen (ctrlReplay st.iDCPin s new).2 := by
  induction ds with
  | nil =>
    intro st s _ _ hm
    exact ⟨st, [], rfl, by simp, by simpa [ctrlReplay] using hm⟩
  | cons d ds ih =>
    intro st s hopen hin hm
    obtain ⟨st1, rc, new1, hrun, hcalls, hf, hpin, hm1⟩ :=
      runCall_mirrors tp st d scr0 s hopen (hin d (List.mem_cons_self d ds)) hm
    obtain ⟨st2, new2, hrun2, hcalls2, hm2⟩ :=
      ih st1 (ctrlReplay st.iDCPin s new1) (by rw [hf]; exact hopen)
        (fun e he => hin e (List.mem_cons_of_mem d he)) hm1
    refine ⟨st2, new1 ++ new2, ?_, ?_, ?_⟩
    · simp only [runCalls, hrun, Option.some_bind, hrun2]
    · rw [hcalls2, hcalls, List.append_assoc]
    · rw [ctrlReplay_append]
      rw [hpin] at hm2
      exact hm2

/-- Mirror invariant from a controller whose RAM was never written: after any
sequence of in-range drawing calls on an open session (large-font rows 0 to 5),
every shadow byte equals the byte last written to the controller at the same
address, or its initial value if that address was never written. -/
theorem shadow_mirrors_controller (tp : Transport) (st : Driver) (ds : List DrawCall)
    (c0 : Int × Controller) (hopen : 0 ≤ st.fHandle) (hin : ∀ d, d ∈ ds → drawInRange d)
    (hc0 : ∀ a, c0.2.ram a = none) :
    ∃ st' new, runCalls tp st ds = some st' ∧ st'.calls = st.calls ++ new ∧
      Mirrors st.ucScreen st'.ucScreen (ctrlReplay st.iDCPin c0 new).2 := by
  apply runCalls_mirrors tp st.ucScreen ds st c0 hopen hin
  intro a _
  constructor
  · intro v hv
    rw [hc0 a] at hv
    simp at hv
  · intro _
    rfl

/-! ### Frame of `oledSetPixel` and the position commands -/

/-- C20: on an open session and an in-range pixel, `oledSetPixel` returns 0 and
changes at most bit `y & 7` of shadow byte `(y >> 3) * 128 + x`: every other shadow
byte and the other seven bits of that byte are as before.  The call either issues
nothing or one reposition to `(x, y >> 3)` followed by one data transfer of a
single byte, which is the new value of that shadow byte. -/
theorem oledSetPixel_frame (tp : Transport) (st : Driver) (x y ucColor : Nat)
    (hopen : 0 ≤ st.fHandle) (hx : x < 128) (hy : y < 64) :
    ∃ st', oledSetPixel tp st x y ucColor = some (st', 0) ∧
      (∀ a, a ≠ (y >>> 3) * 128 + x → st'.ucScreen a = st.ucScreen a) ∧
      (∀ j, j < 8 → j ≠ y &&& 7 →
        (st'.ucScreen ((y >>> 3) * 128 + x)).testBit j
          = (st.ucScreen ((y >>> 3) * 128 + x)).testBit j) ∧
      (st'.calls = st.calls ∨
        st'.calls = st.calls ++ positionCalls st x ((y >>> 3 : Nat) : Int) ++
          dataCalls st [st'.ucScreen ((y >>> 3) * 128 + x)]) := by
  have hk := and7_lt y
  rw [oledSetPixel_inRange tp st x y ucColor hopen hx hy]
  by_cases h : pixelByte (st.ucScreen ((y >>> 3) * 128 + x)) (y &&& 7) ucColor
      ≠ st.ucScreen ((y >>> 3) * 128 + x)
  · rw [if_pos h]
    have hb : memcpy st.ucScreen ((y >>> 3) * 128 + x)
        [pixelByte (st.ucScreen ((y >>> 3) * 128 + x)) (y &&& 7) ucColor] ((y >>> 3) * 128 + x)
        = pixelByte (st.ucScreen ((y >>> 3) * 128 + x)) (y &&& 7) ucColor := by
      rw [memcpy_inside _ _ _ _ (le_refl _) (by simp)]
      simp
    refine ⟨_, rfl, ?_, ?_, Or.inr ?_⟩
    · intro a ha
      exact memcpy_outside _ _ _ _ (by simp only [List.length_singleton]; omega)
    · intro j hj hjk
      simp only [hb]
      rw [pixelByte_testBit_all _ _ _ _ hk]
      simp [hj, hjk]
    · simp only [hb]
  · rw [if_neg h]
    exact ⟨st, rfl, fun _ _ => rfl, fun _ _ _ => rfl, Or.inl rfl⟩

/-- Witness for C20: pixel (5, 10) set on the sample session. -/
theorem oledSetPixel_frame_witness :
    (0 : Int) ≤ sampleOpen.fHandle ∧
    ∃ st', oledSetPixel okTransport sampleOpen (5 : Nat) (10 : Nat) 1 = some (st', 0) ∧
      (∀ a, a ≠ (10 >>> 3) * 128 + 5 → st'.ucScreen a = sampleOpen.ucScreen a) ∧
      (∀ j, j < 8 → j ≠ 10 &&& 7 →
        (st'.ucScreen ((10 >>> 3) * 128 + 5)).testBit j
          = (sampleOpen.ucScreen ((10 >>> 3) * 128 + 5)).testBit j) ∧
      (st'.calls = sampleOpen.calls ∨
        st'.calls = sampleOpen.calls ++ positionCalls sampleOpen (5 : Nat) ((10 >>> 3 : Nat) : Int) ++
          dataCalls sampleOpen [st'.ucScreen ((10 >>> 3) * 128 + 5)]) :=
  ⟨by decide, oledSetPixel_frame okTransport sampleOpen 5 10 1 (by decide) (by decide)
    (by decide)⟩

/-- C18: for a column `x < 128` and a page `y < 8`, `oledSetPosition` appends
exactly three one-byte command transfers `B0|y`, `00|(x & 0x0F)`, `10|(x >> 4)` in
this order, sets the cursor to `y * 128 + x` and changes nothing else, the shadow
in particular.  The address decodes back from the three bytes: the page is the
first byte `& 0x07`, the column is `((third & 0x0F) << 4) | (second & 0x0F)`. -/
theorem oledSetPosition_spec (tp : Transport) (st : Driver) (x y : Nat)
    (hx : x < 128) (hy : y < 8) :
    oledSetPosition tp st x y =
      { st with
        calls := st.calls ++ cmdCalls st [0xb0 ||| y] ++ cmdCalls st [0x00 ||| (x &&& 0x0f)] ++
          cmdCalls st [0x10 ||| (x >>> 4)]
        iScreenOffset := ((y * 128 + x : Nat) : Int) } ∧
    (oledSetPosition tp st x y).ucScreen = st.ucScreen ∧
    (0xb0 ||| y) &&& 0x07 = y ∧
    (((0x10 ||| (x >>> 4)) &&& 0x0f) <<< 4) ||| ((0x00 ||| (x &&& 0x0f)) &&& 0x0f) = x := by
  have b1 : 0xb0 ||| y = 0xb0 + y := by interval_cases y <;> rfl
  have b2 : 0x00 ||| (x &&& 0x0f) = x % 16 := by interval_cases x <;> rfl
  have b3 : 0x10 ||| (x >>> 4) = 0x10 + x / 16 := by interval_cases x <;> rfl
  refine ⟨?_, ?_, ?_, ?_⟩
  · rw [oledSetPosition_eq, positionCalls_inRange st x y hx hy, b1, b2, b3]
    simp only [List.append_assoc]
    congr 1
  · rw [oledSetPosition_eq]
  · interval_cases y <;> rfl
  · interval_cases x <;> rfl

/-- Witness for C18: column 100, page 5. -/
theorem oledSetPosition_spec_witness :
    (100 : Nat) < 128 ∧ (5 : Nat) < 8 ∧
    (oledSetPosition okTransport sampleOpen (100 : Nat) (5 : Nat)).calls =
      [Event.aioWriteI2C 3 0x00 [0xb5], Event.aioWriteI2C 3 0x00 [0x04],
       Event.aioWriteI2C 3 0x00 [0x16]] ∧
    (oledSetPosition okTransport sampleOpen (100 : Nat) (5 : Nat)).iScreenOffset = 740 :=
  ⟨by decide, by decide,
   by rw [(oledSetPosition_spec okTransport sampleOpen 100 5 (by decide) (by decide)).1]; rfl,
   by rw [(oledSetPosition_spec okTransport sampleOpen 100 5 (by decide) (by decide)).1]; rfl⟩

/-! ### Text drawing: shadow content -/

/-- Shadow after the small-font loop, byte by byte. -/
theorem smallShadow_apply (ucFont : Nat → Nat) (szMsg : List Nat) (base : Nat)
    (scr : Nat → Nat) (n a : Nat) :
    smallShadow ucFont szMsg base scr n a =
      if base ≤ a ∧ a < base + 8 * n then
        ucFont ((szMsg.getD ((a - base) / 8) 0 % 256) * 8 + (a - base) % 8)
      else scr a := by
  induction n with
  | zero =>
    rw [if_neg (by omega)]
    rfl
  | succ k ih =>
    have hstep : smallShadow ucFont szMsg base scr (k + 1)
        = memcpy (smallShadow ucFont szMsg base scr k) (base + 8 * k) (glyph8 ucFont szMsg k) := by
      simp only [smallShadow, List.range_succ, List.foldl_append, List.foldl_cons,
        List.foldl_nil]
    rw [hstep]
    by_cases h : base + 8 * k ≤ a ∧ a < base + 8 * k + 8
    · rw [memcpy_inside _ _ _ _ h.1 (by rw [glyph8_length]; exact h.2), if_pos (by omega)]
      have hq : (a - base) / 8 = k := by omega
      have hm : (a - base) % 8 = a - (base + 8 * k) := by omega
      rw [hq, hm, glyph8, readBytes_getD _ _ _ _ (by omega)]
    · rw [memcpy_outside _ _ _ _ (by rw [glyph8_length]; omega), ih]
      by_cases h2 : base ≤ a ∧ a < base + 8 * k
      · rw [if_pos h2, if_pos (by omega)]
      · rw [if_neg h2, if_neg (by omega)]

/-- C14: on an open session, for a column `x` in 0..15, a row `y` in 0..7 and any
text, with `n = min(length(text), 16 - x)`, `oledWriteString(x, y, text, 0)` returns 0
and appends exactly the three position commands for `(x * 8, y)` followed by `n`
data transfers of the 8 glyph bytes of each character (its code taken as an
unsigned byte).  Afterwards shadow byte `y * 128 + x * 8 + 8 * i + b` is byte `b` of
the glyph of character `i`, the cursor is `y * 128 + x * 8 + 8 * n`, and every other
shadow byte is unchanged. -/
theorem oledWriteString_small_spec (tp : Transport) (st : Driver) (x y : Nat)
    (szMsg : List Nat) (hopen : 0 ≤ st.fHandle) (hx : x ≤ 15) (hy : y ≤ 7) :
    ∃ st', oledWriteString tp st x y szMsg 0 = some (st', 0) ∧
      st'.calls = st.calls ++
        (cmdCalls st [0xb0 + y] ++ cmdCalls st [x * 8 % 16] ++ cmdCalls st [0x10 + x * 8 / 16]) ++
        (List.range (min szMsg.length (16 - x))).flatMap (fun i =>
          dataCalls st (readBytes st.ucFont ((szMsg.getD i 0 % 256) * 8) 8)) ∧
      (∀ i b, i < min szMsg.length (16 - x) → b < 8 →
        st'.ucScreen (y * 128 + x * 8 + 8 * i + b)
          = st.ucFont ((szMsg.getD i 0 % 256) * 8 + b)) ∧
      st'.iScreenOffset = ((y * 128 + x * 8 + 8 * min szMsg.length (16 - x) : Nat) : Int) ∧
      (∀ a, (a < y * 128 + x * 8 ∨ y * 128 + x * 8 + 8 * min szMsg.length (16 - x) ≤ a) →
        st'.ucScreen a = st.ucScreen a) := by
  have hx8 : (x : Int) * 8 = ((x * 8 : Nat) : Int) := by push_cast; ring
  refine ⟨_, oledWriteString_small_eq tp st x y szMsg hopen (by omega) (by omega), ?_, ?_, ?_, ?_⟩
  · rw [oledSetPosition_eq, hx8]
    simp only [smallLoopState]
    rw [positionCalls_inRange st (x * 8) y (by omega) (by omega)]
    rfl
  · intro i b hi hb
    rw [oledSetPosition_eq]
    simp only [smallLoopState]
    rw [smallShadow_apply, if_pos (by omega)]
    have hq : (y * 128 + x * 8 + 8 * i + b - (y * 128 + x * 8)) / 8 = i := by omega
    have hm : (y * 128 + x * 8 + 8 * i + b - (y * 128 + x * 8)) % 8 = b := by omega
    rw [hq, hm]
  · rw [oledSetPosition_eq]
    simp only [smallLoopState]
    push_cast
    ring
  · intro a ha
    rw [oledSetPosition_eq]
    simp only [smallLoopState]
    rw [smallShadow_apply, if_neg (by omega)]

/-- Witness for C14: the text "HI" at column 15, row 7 of the sample session, cut
to one glyph. -/
theorem oledWriteString_small_spec_witness :
    (0 : Int) ≤ sampleOpen.fHandle ∧ (15 : Nat) ≤ 15 ∧ (7 : Nat) ≤ 7 ∧
    ∃ st', oledWriteString okTransport sampleOpen (15 : Nat) (7 : Nat) [0x48, 0x49] 0
        = some (st', 0) ∧
      st'.calls = sampleOpen.calls ++
        (cmdCalls sampleOpen [0xb0 + 7] ++ cmdCalls sampleOpen [15 * 8 % 16] ++
          cmdCalls sampleOpen [0x10 + 15 * 8 / 16]) ++
        (List.range (min [0x48, 0x49].length (16 - 15))).flatMap (fun i =>
          dataCalls sampleOpen
            (readBytes sampleOpen.ucFont (([0x48, 0x49].getD i 0 % 256) * 8) 8)) ∧
      (∀ i b, i < min [0x48, 0x49].length (16 - 15) → b < 8 →
        st'.ucScreen (7 * 128 + 15 * 8 + 8 * i + b)
          = sampleOpen.ucFont (([0x48, 0x49].getD i 0 % 256) * 8 + b)) ∧
      st'.iScreenOffset
        = ((7 * 128 + 15 * 8 + 8 * min [0x48, 0x49].length (16 - 15) : Nat) : Int) ∧
      (∀ a, (a < 7 * 128 + 15 * 8 ∨
          7 * 128 + 15 * 8 + 8 * min [0x48, 0x49].length (16 - 15) ≤ a) →
        st'.ucScreen a = sampleOpen.ucScreen a) :=
  ⟨by decide, by decide, by decide,
   oledWriteString_small_spec okTransport sampleOpen 15 7 [0x48, 0x49] (by decide) (by decide)
     (by decide)⟩

theorem glyph16_getD (ucFont : Nat → Nat) (szMsg : List Nat) (i p b : Nat) (hb : b < 16) :
    (glyph16 ucFont szMsg i p).getD b 0
      = ucFont (9728 + (szMsg.getD i 0 % 256) * 64 + 16 * p + b) := by
  rw [glyph16, readBytes_getD _ _ _ _ hb]

/-- Shadow after the large-font loop at the bytes of glyph `i`, strip `p`. -/
theorem largeShadow_apply (ucFont : Nat → Nat) (szMsg : List Nat) (x y : Nat)
    (scr : Nat → Nat) (n : Nat) (hfit : x + 16 * n ≤ 128) (i p b : Nat)
    (hi : i < n) (hp : p < 3) (hb : b < 16) :
    largeShadow ucFont szMsg (y * 128 + x) scr n ((y + p) * 128 + x + 16 * i + b)
      = ucFont (9728 + (szMsg.getD i 0 % 256) * 64 + 16 * p + b) := by
  induction n with
  | zero => omega
  | succ k ih =>
    have hstep : largeShadow ucFont szMsg (y * 128 + x) scr (k + 1)
        = memcpy (memcpy (memcpy (largeShadow ucFont szMsg (y * 128 + x) scr k)
            (y * 128 + x + 16 * k) (glyph16 ucFont szMsg k 0))
            (y * 128 + x + 128 + 16 * k) (glyph16 ucFont szMsg k 1))
            (y * 128 + x + 256 + 16 * k) (glyph16 ucFont szMsg k 2) := by
      simp only [largeShadow, List.range_succ, List.foldl_append, List.foldl_cons,
        List.foldl_nil]
    rw [hstep]
    by_cases hik : i = k
    · subst hik
      interval_cases p
      · rw [memcpy_outside _ _ _ _ (by rw [glyph16_length]; omega),
          memcpy_outside _ _ _ _ (by rw [glyph16_length]; omega),
          memcpy_inside _ _ _ _ (by omega) (by rw [glyph16_length]; omega)]
        have : (y + 0) * 128 + x + 16 * i + b - (y * 128 + x + 16 * i) = b := by omega
        rw [this, glyph16_getD _ _ _ _ _ hb]
      · rw [memcpy_outside _ _ _ _ (by rw [glyph16_length]; omega),
          memcpy_inside _ _ _ _ (by omega) (by rw [glyph16_length]; omega)]
        have : (y + 1) * 128 + x + 16 * i + b - (y * 128 + x + 128 + 16 * i) = b := by omega
        rw [this, glyph16_getD _ _ _ _ _ hb]
      · rw [memcpy_inside _ _ _ _ (by omega) (by rw [glyph16_length]; omega)]
        have : (y + 2) * 128 + x + 16 * i + b - (y * 128 + x + 256 + 16 * i) = b := by omega
        rw [this, glyph16_getD _ _ _ _ _ hb]
    · have hik' : i < k := by omega
      rw [memcpy_outside _ _ _ _ (by rw [glyph16_length]; interval_cases p <;> omega),
        memcpy_outside _ _ _ _ (by rw [glyph16_length]; interval_cases p <;> omega),
        memcpy_outside _ _ _ _ (by rw [glyph16_length]; interval_cases p <;> omega)]
      exact ih (by omega) hik'

/-- C15: on an open session, for a column `x` in 0..7, a row `y` in 0..5 and any
text, with `n = min(length(text), 8 - x)`, `oledWriteString(x, y, text, 1)` returns 0
and appends, for each character `i < n` in order, exactly three (reposition,
16-byte data transfer) pairs at `(x * 16 + 16 * i, y)`, `(x * 16 + 16 * i, y + 1)` and
`(x * 16 + 16 * i, y + 2)` carrying bytes 0..15, 16..31 and 32..47 of the 64-byte
large glyph of that character; bytes 48..63 of the glyph are in no transfer.
Afterwards shadow byte `(y + p) * 128 + x * 16 + 16 * i + b` is glyph byte
`16 * p + b`, for `p < 3` and `b < 16`. -/
theorem oledWriteString_large_spec (tp : Transport) (st : Driver) (x y : Nat)
    (szMsg : List Nat) (bLarge : Int) (hL : bLarge ≠ 0) (hopen : 0 ≤ st.fHandle)
    (hx : x ≤ 7) (hy : y ≤ 5) :
    ∃ st', oledWriteString tp st x y szMsg bLarge = some (st', 0) ∧
      st'.calls = st.calls ++
        (List.range (min szMsg.length (8 - x))).flatMap (fun i =>
          (positionCalls st ((x * 16 + 16 * i : Nat) : Int) (y : Int) ++
            dataCalls st (readBytes st.ucFont (9728 + (szMsg.getD i 0 % 256) * 64) 16)) ++
          (positionCalls st ((x * 16 + 16 * i : Nat) : Int) ((y + 1 : Nat) : Int) ++
            dataCalls st (readBytes st.ucFont (9728 + (szMsg.getD i 0 % 256) * 64 + 16) 16)) ++
          (positionCalls st ((x * 16 + 16 * i : Nat) : Int) ((y + 2 : Nat) : Int) ++
            dataCalls st (readBytes st.ucFont (9728 + (szMsg.getD i 0 % 256) * 64 + 32) 16))) ∧
      (∀ i p b, i < min szMsg.length (8 - x) → p < 3 → b < 16 →
        st'.ucScreen ((y + p) * 128 + x * 16 + 16 * i + b)
          = st.ucFont (9728 + (szMsg.getD i 0 % 256) * 64 + 16 * p + b)) := by
  refine ⟨_, oledWriteString_large_eq tp st x y szMsg bLarge hL hopen (by omega) (by omega),
    ?_, ?_⟩
  · simp only [largeLoopState]
    congr 2
    funext i
    have h1 : ((x * 16 : Nat) : Int) + (i : Int) * 16 = ((x * 16 + 16 * i : Nat) : Int) := by
      push_cast; ring
    have h2 : (y : Int) + 1 = ((y + 1 : Nat) : Int) := by push_cast; ring
    have h3 : (y : Int) + 2 = ((y + 2 : Nat) : Int) := by push_cast; ring
    simp only [largeGlyphCalls, glyph16, h1, h2, h3, Nat.mul_zero, Nat.add_zero, Nat.mul_one,
      List.append_assoc]
  · intro i p b hi hp hb
    simp only [largeLoopState]
    have := largeShadow_apply st.ucFont szMsg (x * 16) y st.ucScreen
      (min szMsg.length (8 - x)) (by omega) i p b hi hp hb
    rw [← this]

/-- Witness for C15: the text "HI" at column 7, row 5 of the sample session, cut
to one glyph. -/
theorem oledWriteString_large_spec_witness :
    (1 : Int) ≠ 0 ∧ (0 : Int) ≤ sampleOpen.fHandle ∧ (7 : Nat) ≤ 7 ∧ (5 : Nat) ≤ 5 ∧
    ∃ st', oledWriteString okTransport sampleOpen (7 : Nat) (5 : Nat) [0x48, 0x49] 1
        = some (st', 0) ∧
      st'.calls = sampleOpen.calls ++
        (List.range (min [0x48, 0x49].length (8 - 7))).flatMap (fun i =>
          (positionCalls sampleOpen ((7 * 16 + 16 * i : Nat) : Int) ((5 : Nat) : Int) ++
            dataCalls sampleOpen
              (readBytes sampleOpen.ucFont (9728 + ([0x48, 0x49].getD i 0 % 256) * 64) 16)) ++
          (positionCalls sampleOpen ((7 * 16 + 16 * i : Nat) : Int) ((5 + 1 : Nat) : Int) ++
            dataCalls sampleOpen
              (readBytes sampleOpen.ucFont
                (9728 + ([0x48, 0x49].getD i 0 % 256) * 64 + 16) 16)) ++
          (positionCalls sampleOpen ((7 * 16 + 16 * i : Nat) : Int) ((5 + 2 : Nat) : Int) ++
            dataCalls sampleOpen
              (readBytes sampleOpen.ucFont
                (9728 + ([0x48, 0x49].getD i 0 % 256) * 64 + 32) 16))) ∧
      (∀ i p b, i < min [0x48, 0x49].length (8 - 7) → p < 3 → b < 16 →
        st'.ucScreen ((5 + p) * 128 + 7 * 16 + 16 * i + b)
          = sampleOpen.ucFont (9728 + ([0x48, 0x49].getD i 0 % 256) * 64 + 16 * p + b)) :=
  ⟨by decide, by decide, by decide, by decide,
   oledWriteString_large_spec okTransport sampleOpen 7 5 [0x48, 0x49] 1 (by decide) (by decide)
     (by decide) (by decide)⟩

/-! ### Return value of `oledInit` -/

/-- C12 (counterexample): the hardware layer initialises (`AIOInit` returns 1), the
bus is I2C so no line is registered, the open succeeds (handle 3), and still
`oledInit` returns 1, because the init command transfer reports -1. -/
theorem oledInit_fails_on_failed_transfer :
    deadBusTransport [Event.aioInit] = 1 ∧
    deadBusTransport [Event.aioInit, Event.aioOpenI2C 0 0x3c] = 3 ∧
    deadBusTransport [Event.aioInit, Event.aioOpenI2C 0 0x3c,
      Event.aioWriteI2C 3 0x00 initbuf] = -1 ∧
    (oledInit deadBusTransport (initialDriver unitFont) 0 0x3c 0 0 0 0 0).2 = 1 := by
  decide

/-- C12 (amended): for all arguments and every transport, `oledInit` returns 1
exactly when `AIOInit` returns 0, or (SPI only) `AIOAddGPIO` does not return 1 for
the D/C line or for the reset line, or the open returns -1, or the transfer of the
21 init command bytes returns a value `≤ 0`; in every other case it returns 0,
whatever the invert and flip transfers report and whatever `bFlip` and `bInvert`
are. -/
theorem oledInit_result (tp : Transport) (st : Driver)
    (iChannel iAddr bFlip bInvert iDC iReset : Int) :
    (oledInit tp st iChannel iAddr bFlip bInvert 0 iDC iReset).2 =
      (if tp (st.calls ++ [Event.aioInit]) = 0 ∨
          tp (st.calls ++ [Event.aioInit, Event.aioOpenI2C iChannel iAddr]) = -1 ∨
          tp (st.calls ++ [Event.aioInit, Event.aioOpenI2C iChannel iAddr,
            Event.aioWriteI2C
              (tp (st.calls ++ [Event.aioInit, Event.aioOpenI2C iChannel iAddr])) 0x00 initbuf])
            ≤ 0
        then 1 else 0) ∧
    (∀ bSPI : Int, bSPI ≠ 0 →
      (oledInit tp st iChannel iAddr bFlip bInvert bSPI iDC iReset).2 =
        (if tp (st.calls ++ [Event.aioInit]) = 0 ∨
            tp (st.calls ++ [Event.aioInit, Event.aioAddGPIO iDC]) ≠ 1 ∨
            tp (st.calls ++ [Event.aioInit, Event.aioAddGPIO iDC, Event.aioAddGPIO iReset]) ≠ 1 ∨
            tp (st.calls ++ [Event.aioInit, Event.aioAddGPIO iDC, Event.aioAddGPIO iReset,
              Event.aioWriteGPIO iReset 0, Event.aioWriteGPIO iReset 1,
              Event.aioOpenSPI iChannel 5000000]) = -1 ∨
            tp (st.calls ++ [Event.aioInit, Event.aioAddGPIO iDC, Event.aioAddGPIO iReset,
              Event.aioWriteGPIO iReset 0, Event.aioWriteGPIO iReset 1,
              Event.aioOpenSPI iChannel 5000000, Event.aioWriteGPIO iDC 0,
              Event.aioWriteSPI
                (tp (st.calls ++ [Event.aioInit, Event.aioAddGPIO iDC, Event.aioAddGPIO iReset,
                  Event.aioWriteGPIO iReset 0, Event.aioWriteGPIO iReset 1,
                  Event.aioOpenSPI iChannel 5000000])) initbuf]) ≤ 0
          then 1 else 0)) := by
  constructor
  · unfold oledInit oledInitOpen WriteCommand
    simp only [ne_eq, not_true_eq_false, if_false, List.append_assoc, List.cons_append,
      List.nil_append]
    by_cases h0 : tp (st.calls ++ [Event.aioInit]) = 0
    · simp only [h0, true_or, if_true]
    · by_cases h1 : tp (st.calls ++ [Event.aioInit, Event.aioOpenI2C iChannel iAddr]) = -1
      · simp only [h0, h1, if_false, true_or, or_true, if_true]
      · by_cases h2 : tp (st.calls ++ [Event.aioInit, Event.aioOpenI2C iChannel iAddr,
            Event.aioWriteI2C
              (tp (st.calls ++ [Event.aioInit, Event.aioOpenI2C iChannel iAddr])) 0x00 initbuf])
            ≤ 0
        · simp only [h0, h1, h2, if_false, or_true, if_true]
        · simp only [h0, h1, h2, if_false, or_self]
  · intro bSPI hS
    unfold oledInit oledInitOpen WriteCommand
    simp only [ne_eq, hS, not_false_eq_true, if_true, List.append_assoc, List.cons_append,
      List.nil_append]
    by_cases h0 : tp (st.calls ++ [Event.aioInit]) = 0
    · simp only [h0, true_or, if_true]
    · by_cases h1 : tp (st.calls ++ [Event.aioInit, Event.aioAddGPIO iDC]) = 1
      · by_cases h2 : tp (st.calls ++ [Event.aioInit, Event.aioAddGPIO iDC,
            Event.aioAddGPIO iReset]) = 1
        · by_cases h3 : tp (st.calls ++ [Event.aioInit, Event.aioAddGPIO iDC,
              Event.aioAddGPIO iReset, Event.aioWriteGPIO iReset 0, Event.aioWriteGPIO iReset 1,
              Event.aioOpenSPI iChannel 5000000]) = -1
          · simp only [h0, h1, h2, h3, if_false, not_true_eq_false, true_or, or_true, if_true]
          · by_cases h4 : tp (st.calls ++ [Event.aioInit, Event.aioAddGPIO iDC,
                Event.aioAddGPIO iReset, Event.aioWriteGPIO iReset 0,
                Event.aioWriteGPIO iReset 1, Event.aioOpenSPI iChannel 5000000,
                Event.aioWriteGPIO iDC 0,
                Event.aioWriteSPI
                  (tp (st.calls ++ [Event.aioInit, Event.aioAddGPIO iDC, Event.aioAddGPIO iReset,
                    Event.aioWriteGPIO iReset 0, Event.aioWriteGPIO iReset 1,
                    Event.aioOpenSPI iChannel 5000000])) initbuf]) ≤ 0
            · simp only [h0, h1, h2, h3, h4, if_false, not_true_eq_false, or_true, if_true]
            · simp only [h0, h1, h2, h3, h4, if_false, not_true_eq_false, or_self]
        · simp only [h0, h1, h2, if_false, not_true_eq_false, not_false_eq_true, true_or,
            or_true, if_true]
      · simp only [h0, h1, if_false, not_false_eq_true, true_or, or_true, if_true]

/-- Witness for C12 (amended): an SPI initialisation on the transport whose calls
all return 1. -/
theorem oledInit_result_witness :
    (1 : Int) ≠ 0 ∧
    (oledInit okTransport (initialDriver unitFont) 0 0 0 0 1 37 35).2 =
      (if okTransport ((initialDriver unitFont).calls ++ [Event.aioInit]) = 0 ∨
          okTransport ((initialDriver unitFont).calls ++
            [Event.aioInit, Event.aioAddGPIO 37]) ≠ 1 ∨
          okTransport ((initialDriver unitFont).calls ++
            [Event.aioInit, Event.aioAddGPIO 37, Event.aioAddGPIO 35]) ≠ 1 ∨
          okTransport ((initialDriver unitFont).calls ++
            [Event.aioInit, Event.aioAddGPIO 37, Event.aioAddGPIO 35,
              Event.aioWriteGPIO 35 0, Event.aioWriteGPIO 35 1,
              Event.aioOpenSPI 0 5000000]) = -1 ∨
          okTransport ((initialDriver unitFont).calls ++
            [Event.aioInit, Event.aioAddGPIO 37, Event.aioAddGPIO 35,
              Event.aioWriteGPIO 35 0, Event.aioWriteGPIO 35 1,
              Event.aioOpenSPI 0 5000000, Event.aioWriteGPIO 37 0,
              Event.aioWriteSPI
                (okTransport ((initialDriver unitFont).calls ++
                  [Event.aioInit, Event.aioAddGPIO 37, Event.aioAddGPIO 35,
                    Event.aioWriteGPIO 35 0, Event.aioWriteGPIO 35 1,
                    Event.aioOpenSPI 0 5000000])) initbuf]) ≤ 0
        then 1 else 0) :=
  ⟨by decide, (oledInit_result okTransport (initialDriver unitFont) 0 0 0 0 37 35).2 1
    (by decide)⟩

/-! ### Repeating the font rotation -/

theorem rotateBits_lt (s : Nat → Nat) (ucMask : Nat) : rotateBits s ucMask < 256 := by
  have hr : List.range 8 = [0, 1, 2, 3, 4, 5, 6, 7] := by decide
  rw [rotateBits_eq_shiftIn, hr]
  exact shiftIn8_lt _ _ _ _ _ _ _ _

theorem rotateBits_congr (s s' : Nat → Nat) (ucMask : Nat) (h : ∀ x, x < 8 → s x = s' x) :
    rotateBits s ucMask = rotateBits s' ucMask := by
  have hr : List.range 8 = [0, 1, 2, 3, 4, 5, 6, 7] := by decide
  unfold rotateBits
  rw [hr]
  simp only [List.foldl_cons, List.foldl_nil, h 0 (by norm_num), h 1 (by norm_num),
    h 2 (by norm_num), h 3 (by norm_num), h 4 (by norm_num), h 5 (by norm_num),
    h 6 (by norm_num), h 7 (by norm_num)]

/-- Output byte `k` of small glyph `g` after the 8x8 pass. -/
theorem rotate8x8_byte (p : (Nat → Nat) × (Nat → Nat)) (g k : Nat) (hg : g < 256)
    (hk : k < 8) :
    (rotate8x8 p).1 (g * 8 + k) = rotateBits (fun x => p.1 (g * 8 + x)) (2 ^ (7 - k)) := by
  have hp : p = (p.1, p.2) := rfl
  rw [hp]
  unfold rotate8x8
  rw [rotate8x8_firstGlyphs, if_pos (by omega)]
  have hq : (g * 8 + k) / 8 = g := by omega
  have hm : (g * 8 + k) % 8 = k := by omega
  rw [hq, hm]

/-- Output byte `k` of small glyph `g` after `RotateFont90`. -/
theorem RotateFont90_byte (ucFont : Nat → Nat) (g k : Nat) (hg : g < 256) (hk : k < 8) :
    RotateFont90 ucFont (g * 8 + k)
      = rotateBits (fun x => ucFont (g * 8 + x)) (2 ^ (7 - k)) := by
  unfold RotateFont90
  rw [rotate16x32_low _ _ (by omega), rotate8x8_byte _ g k hg hk]

/-- Bits of an output byte of the 8x8 pass. -/
theorem rotate8x8_testBit (p : (Nat → Nat) × (Nat → Nat)) (g k r : Nat) (hg : g < 256)
    (hk : k < 8) :
    ((rotate8x8 p).1 (g * 8 + k)).testBit r
      = (decide (r < 8) && (p.1 (g * 8 + r)).testBit (7 - k)) := by
  rw [rotate8x8_byte p g k hg hk, rotateBits_testBit]

/-- C17: the 8x8 pass is a quarter turn of each glyph.  For every font table and
every small glyph `g` whose eight bytes are bytes (`< 256`): applying the pass
twice gives the half turn (bit `r` of output byte `k` is bit `7 - r` of input byte
`7 - k`: byte order and bit order both reversed), applying it four times gives the
glyph back, and the pass is not idempotent: for the glyph `01 00 00 00 00 00 00 00`
the last byte is `01` after one pass and `80` after two. -/
theorem rotate8x8_quarter_turn (ucFont ucTemp : Nat → Nat) (g : Nat) (hg : g < 256)
    (hbyte : ∀ x, x < 8 → ucFont (g * 8 + x) < 256) :
    (∀ k r, k < 8 → r < 8 →
      ((rotate8x8 (rotate8x8 (ucFont, ucTemp))).1 (g * 8 + k)).testBit r
        = (ucFont (g * 8 + (7 - k))).testBit (7 - r)) ∧
    (∀ k, k < 8 →
      (rotate8x8 (rotate8x8 (rotate8x8 (rotate8x8 (ucFont, ucTemp))))).1 (g * 8 + k)
        = ucFont (g * 8 + k)) ∧
    (rotate8x8 (unitFont, ucTemp)).1 (0x48 * 8 + 7) = 0x01 ∧
    (rotate8x8 (rotate8x8 (unitFont, ucTemp))).1 (0x48 * 8 + 7) = 0x80 := by
  have two : ∀ (p : (Nat → Nat) × (Nat → Nat)) (k r : Nat), k < 8 → r < 8 →
      ((rotate8x8 (rotate8x8 p)).1 (g * 8 + k)).testBit r
        = (p.1 (g * 8 + (7 - k))).testBit (7 - r) := by
    intro p k r hk hr
    rw [rotate8x8_testBit _ g k r hg hk, rotate8x8_testBit _ g r (7 - k) hg hr]
    have h1 : decide (r < 8) = true := by simpa using hr
    have h2 : decide (7 - k < 8) = true := by simp; omega
    rw [h1, h2]
    simp
  refine ⟨two (ucFont, ucTemp), ?_, ?_, ?_⟩
  · intro k hk
    apply Nat.eq_of_testBit_eq
    intro r
    by_cases hr : r < 8
    · rw [two _ k r hk hr, two (ucFont, ucTemp) (7 - k) (7 - r) (by omega) (by omega)]
      have e1 : 7 - (7 - k) = k := by omega
      have e2 : 7 - (7 - r) = r := by omega
      rw [e1, e2]
    · have hr' : 8 ≤ r := by omega
      have hlt : ∀ v : Nat, v < 256 → v.testBit r = false := by
        intro v hv
        have h256 : (256 : Nat) = 2 ^ 8 := by norm_num
        rw [h256] at hv
        exact Nat.testBit_lt_two_pow
          (lt_of_lt_of_le hv (Nat.pow_le_pow_right (by norm_num) hr'))
      rw [hlt _ (hbyte k hk), rotate8x8_byte _ g k hg hk]
      exact hlt _ (rotateBits_lt _ _)
  · rw [rotate8x8_byte _ 0x48 7 (by norm_num) (by norm_num)]
    dsimp only
    decide
  · rw [rotate8x8_byte _ 0x48 7 (by norm_num) (by norm_num)]
    have hin : ∀ x, x < 8 →
        (rotate8x8 (unitFont, ucTemp)).1 (0x48 * 8 + x) = if x = 7 then 1 else 0 := by
      intro x hx
      rw [rotate8x8_byte _ 0x48 x (by norm_num) hx]
      dsimp only
      interval_cases x <;> decide
    rw [rotateBits_congr _ (fun x => if x = 7 then 1 else 0) _ hin]
    decide

/-- Witness for C17: glyph `0x48` of the table `unitFont`. -/
theorem rotate8x8_quarter_turn_witness :
    (0x48 : Nat) < 256 ∧ (∀ x, x < 8 → unitFont (0x48 * 8 + x) < 256) ∧
    (∀ k, k < 8 →
      (rotate8x8 (rotate8x8 (rotate8x8 (rotate8x8 (unitFont, unitFont))))).1 (0x48 * 8 + k)
        = unitFont (0x48 * 8 + k)) ∧
    (rotate8x8 (unitFont, unitFont)).1 (0x48 * 8 + 7) = 0x01 ∧
    (rotate8x8 (rotate8x8 (unitFont, unitFont))).1 (0x48 * 8 + 7) = 0x80 :=
  ⟨by decide, fun x _ => by unfold unitFont; split <;> norm_num,
   (rotate8x8_quarter_turn unitFont unitFont 0x48 (by decide)
     (fun x _ => by unfold unitFont; split <;> norm_num)).2.1,
   (rotate8x8_quarter_turn unitFont unitFont 0x48 (by decide)
     (fun x _ => by unfold unitFont; split <;> norm_num)).2.2⟩

/-- The eight bytes of small glyph `g` after `RotateFont90`, from its eight bytes
before. -/
theorem RotateFont90_glyph_bytes (ucFont : Nat → Nat) (g : Nat) (hg : g < 256) (l : List Nat)
    (hin : readBytes ucFont (g * 8) 8 = l) :
    readBytes (RotateFont90 ucFont) (g * 8) 8
      = (List.range 8).map (fun k => rotateBits (fun x => l.getD x 0) (2 ^ (7 - k))) := by
  unfold readBytes
  apply List.map_congr_left
  intro k hk
  have hk8 : k < 8 := List.mem_range.mp hk
  rw [RotateFont90_byte ucFont g k hg hk8]
  apply rotateBits_congr
  intro x hx
  rw [← hin, readBytes_getD _ _ _ _ hx]

theorem oledShutdown_ucFont (tp : Transport) (st : Driver) :
    (oledShutdown tp st).ucFont = st.ucFont := by
  unfold oledShutdown
  split
  · simp only [WriteCommand_fst]
  · rfl

/-- Whenever `oledInit` (I2C) gets past the open, it has run `RotateFont90` on the
font table it found. -/
theorem oledInit_i2c_ucFont (tp : Transport) (st : Driver)
    (iChannel iAddr bFlip bInvert iDC iReset : Int)
    (h1 : tp (st.calls ++ [Event.aioInit]) ≠ 0)
    (h2 : tp (st.calls ++ [Event.aioInit, Event.aioOpenI2C iChannel iAddr]) ≠ -1) :
    (oledInit tp st iChannel iAddr bFlip bInvert 0 iDC iReset).1.ucFont
      = RotateFont90 st.ucFont := by
  unfold oledInit oledInitOpen
  simp only [ne_eq, not_true_eq_false, if_false, List.append_assoc, List.cons_append,
    List.nil_append, h1, h2, WriteCommand_fst]
  split
  · rfl
  · split <;> split <;> rfl

/-- C11 (failing input): `oledInit`, `oledShutdown`, `oledInit` on a transport whose
calls all succeed, from process start with the font table `unitFont`.  Both
`oledInit` calls return 0 and each runs `RotateFont90`: glyph `0x48` is
`00 00 00 00 00 00 00 01` after the first `oledInit` and
`00 00 00 00 00 00 00 80` after the second, so the second `oledInit` changed the
glyph table. -/
theorem oledInit_again_rotates_again :
    (oledInit okTransport (initialDriver unitFont) 0 0x3c 0 0 0 0 0).2 = 0 ∧
    (oledInit okTransport
      (oledShutdown okTransport
        (oledInit okTransport (initialDriver unitFont) 0 0x3c 0 0 0 0 0).1)
      0 0x3c 0 0 0 0 0).2 = 0 ∧
    readBytes (oledInit okTransport (initialDriver unitFont) 0 0x3c 0 0 0 0 0).1.ucFont
      (0x48 * 8) 8 = [0x00, 0x00, 0x00, 0x00, 0x00, 0x00, 0x00, 0x01] ∧
    readBytes
      (oledInit okTransport
        (oledShutdown okTransport
          (oledInit okTransport (initialDriver unitFont) 0 0x3c 0 0 0 0 0).1)
        0 0x3c 0 0 0 0 0).1.ucFont
      (0x48 * 8) 8 = [0x00, 0x00, 0x00, 0x00, 0x00, 0x00, 0x00, 0x80] := by
  have e1 : readBytes (RotateFont90 unitFont) (0x48 * 8) 8
      = [0x00, 0x00, 0x00, 0x00, 0x00, 0x00, 0x00, 0x01] := by
    rw [RotateFont90_glyph_bytes unitFont 0x48 (by norm_num)
      [0x01, 0x00, 0x00, 0x00, 0x00, 0x00, 0x00, 0x00] (by decide)]
    decide
  have e2 : readBytes (RotateFont90 (RotateFont90 unitFont)) (0x48 * 8) 8
      = [0x00, 0x00, 0x00, 0x00, 0x00, 0x00, 0x00, 0x80] := by
    rw [RotateFont90_glyph_bytes (RotateFont90 unitFont) 0x48 (by norm_num) _ e1]
    decide
  refine ⟨by decide, by decide, ?_, ?_⟩
  · rw [oledInit_i2c_ucFont okTransport _ 0 0x3c 0 0 0 0 (by decide) (by decide)]
    exact e1
  · rw [oledInit_i2c_ucFont okTransport _ 0 0x3c 0 0 0 0 (by decide) (by decide),
      oledShutdown_ucFont,
      oledInit_i2c_ucFont okTransport _ 0 0x3c 0 0 0 0 (by decide) (by decide)]
    exact e2

/-! ### `RotateFont90`, 16x32 pass -/

theorem rotateBits2_eq (s : Nat → Nat) (ucMask : Nat) :
    rotateBits2 s ucMask
      = (rotateBits (fun x => s (x * 2)) ucMask, rotateBits (fun x => s (x * 2 + 1)) ucMask) := by
  have hr : List.range 8 = [0, 1, 2, 3, 4, 5, 6, 7] := by decide
  unfold rotateBits2 rotateBits
  rw [hr]
  simp only [List.foldl_cons, List.foldl_nil]

/-- The `y` loop of the 16x32 case stores the rotated even bytes of `s` at
`d[0..7]`, the rotated odd bytes at `d[8..15]`, and leaves the rest of `ucTemp`
alone. -/
theorem rotateRows16_snd (s ucTemp : Nat → Nat) (dOff a : Nat) :
    (rotateRows16 s dOff ucTemp).2 a =
      if dOff ≤ a ∧ a < dOff + 8 then
        rotateBits (fun x => s (x * 2)) (2 ^ (7 - (a - dOff)))
      else if dOff + 8 ≤ a ∧ a < dOff + 16 then
        rotateBits (fun x => s (x * 2 + 1)) (2 ^ (7 - (a - (dOff + 8))))
      else ucTemp a := by
  have hr : List.range 8 = [0, 1, 2, 3, 4, 5, 6, 7] := by decide
  unfold rotateRows16
  rw [hr]
  simp only [List.foldl_cons, List.foldl_nil, rotateBits2_eq]
  by_cases h1 : dOff ≤ a ∧ a < dOff + 8
  · rw [if_pos h1]
    obtain ⟨m, hm, rfl⟩ : ∃ m, m < 8 ∧ a = dOff + m := ⟨a - dOff, by omega, by omega⟩
    have hsub : dOff + m - dOff = m := by omega
    rw [hsub]
    interval_cases m <;> simp [Function.update]
  · rw [if_neg h1]
    by_cases h2 : dOff + 8 ≤ a ∧ a < dOff + 16
    · rw [if_pos h2]
      obtain ⟨m, hm, rfl⟩ : ∃ m, m < 8 ∧ a = dOff + 8 + m :=
        ⟨a - (dOff + 8), by omega, by omega⟩
      have hsub : dOff + 8 + m - (dOff + 8) = m := by omega
      rw [hsub]
      interval_cases m <;> simp [Function.update] <;> omega
    · rw [if_neg h2]
      simp only [Function.update, eq_rec_constant, dite_eq_ite]
      repeat rw [if_neg (by omega)]

/-- The scratch buffer after the first `n` strips of one large glyph: strip
`j < n` holds, at `ucTemp[16 * j ..]`, the rotated even bytes and then the rotated
odd bytes of the 16 source bytes `src[16 * j ..]`. -/
theorem rotateStrips (src ucTemp : Nat → Nat) (n m : Nat) :
    ((List.range n).foldl
      (fun t j => (rotateRows16 (fun x => src (j * 16 + x)) (j * 16) t).2) ucTemp) m =
      if m < n * 16 then
        if m % 16 < 8 then
          rotateBits (fun x => src (m / 16 * 16 + x * 2)) (2 ^ (7 - m % 16))
        else
          rotateBits (fun x => src (m / 16 * 16 + (x * 2 + 1))) (2 ^ (7 - (m % 16 - 8)))
      else ucTemp m := by
  induction n generalizing m with
  | zero =>
    rw [if_neg (by omega)]
    rfl
  | succ k ih =>
    rw [List.range_succ, List.foldl_append]
    simp only [List.foldl_cons, List.foldl_nil]
    rw [rotateRows16_snd]
    by_cases h1 : k * 16 ≤ m ∧ m < k * 16 + 8
    · have hq : m / 16 = k := by omega
      have hr : m % 16 = m - k * 16 := by omega
      rw [if_pos h1, if_pos (show m < (k + 1) * 16 by omega),
        if_pos (show m % 16 < 8 by omega), hq, hr]
    · rw [if_neg h1]
      by_cases h2 : k * 16 + 8 ≤ m ∧ m < k * 16 + 16
      · have hq : m / 16 = k := by omega
        have hr : m % 16 - 8 = m - (k * 16 + 8) := by omega
        rw [if_pos h2, if_pos (show m < (k + 1) * 16 by omega),
          if_neg (show ¬ m % 16 < 8 by omega), hq, hr]
      · rw [if_neg h2, ih]
        by_cases h3 : m < k * 16
        · rw [if_pos h3, if_pos (show m < (k + 1) * 16 by omega)]
        · rw [if_neg h3, if_neg (show ¬ m < (k + 1) * 16 by omega)]

/-- Font table after one iteration of the 16x32 glyph loop: the 64 bytes of glyph
`i` are replaced, strip `j = m / 16` being rotated from the 16 bytes that start 12
bytes behind the strip. -/
theorem rotateGlyph16_fst (p : (Nat → Nat) × (Nat → Nat)) (i a : Nat) :
    (rotateGlyph16 p i).1 a =
      if 9728 + i * 64 ≤ a ∧ a < 9728 + i * 64 + 64 then
        if (a - (9728 + i * 64)) % 16 < 8 then
          rotateBits
            (fun x => p.1 (9728 + 12 + i * 64 + ((a - (9728 + i * 64)) / 16 * 16 + x * 2)))
            (2 ^ (7 - (a - (9728 + i * 64)) % 16))
        else
          rotateBits
            (fun x => p.1 (9728 + 12 + i * 64 + ((a - (9728 + i * 64)) / 16 * 16 + (x * 2 + 1))))
            (2 ^ (7 - ((a - (9728 + i * 64)) % 16 - 8)))
      else p.1 a := by
  have hfold : ∀ t : Nat → Nat,
      (List.range 4).foldl
        (fun t j =>
          (rotateRows16 (fun x => p.1 (9728 + 12 + (i * 64) + (j * 16) + x)) (j * 16) t).2) t
      = (List.range 4).foldl
        (fun t j =>
          (rotateRows16 (fun x => (fun z => p.1 (9728 + 12 + i * 64 + z)) (j * 16 + x))
            (j * 16) t).2) t := by
    intro t
    simp only [Nat.add_assoc]
  unfold rotateGlyph16
  simp only [memcpy, readBytes_length]
  by_cases h : 9728 + i * 64 ≤ a ∧ a < 9728 + i * 64 + 64
  · rw [if_pos h, if_pos h, readBytes_getD _ _ _ _ (by omega), hfold,
      rotateStrips (fun z => p.1 (9728 + 12 + i * 64 + z)), Nat.zero_add, if_pos (by omega)]
  · rw [if_neg h, if_neg h]

theorem rotatedLargeByte_congr (f f' : Nat → Nat) (i m : Nat)
    (h : ∀ a, 9728 + 12 + i * 64 ≤ a → a < 9728 + 12 + i * 64 + 64 → f' a = f a)
    (hm : m < 64) :
    rotatedLargeByte f' i m = rotatedLargeByte f i m := by
  unfold rotatedLargeByte
  split
  · apply rotateBits_congr
    intro x hx
    exact h _ (by omega) (by omega)
  · apply rotateBits_congr
    intro x hx
    exact h _ (by omega) (by omega)

/-- Font table after the first `n` iterations of the 16x32 glyph loop: the glyphs
below `n` are rotated from the original table; the rest is untouched. -/
theorem rotate16x32_firstGlyphs (ucFont ucTemp : Nat → Nat) (n a : Nat) :
    ((List.range n).foldl rotateGlyph16 (ucFont, ucTemp)).1 a =
      if 9728 ≤ a ∧ a < 9728 + n * 64 then
        rotatedLargeByte ucFont ((a - 9728) / 64) ((a - 9728) % 64)
      else ucFont a := by
  induction n generalizing a with
  | zero =>
    rw [if_neg (by omega)]
    rfl
  | succ k ih =>
    rw [List.range_succ, List.foldl_append]
    simp only [List.foldl_cons, List.foldl_nil]
    rw [rotateGlyph16_fst]
    by_cases h : 9728 + k * 64 ≤ a ∧ a < 9728 + k * 64 + 64
    · have hq : (a - 9728) / 64 = k := by omega
      have hr : (a - 9728) % 64 = a - (9728 + k * 64) := by omega
      rw [if_pos h, if_pos (show 9728 ≤ a ∧ a < 9728 + (k + 1) * 64 by omega), hq, hr]
      have := rotatedLargeByte_congr ucFont
        ((List.range k).foldl rotateGlyph16 (ucFont, ucTemp)).1 k (a - (9728 + k * 64))
        (by
          intro b hb1 hb2
          rw [ih, if_neg (by omega)])
        (by omega)
      rw [← this]
      rfl
    · rw [if_neg h, ih]
      by_cases h2 : 9728 ≤ a ∧ a < 9728 + k * 64
      · rw [if_pos h2, if_pos (show 9728 ≤ a ∧ a < 9728 + (k + 1) * 64 by omega)]
      · rw [if_neg h2, if_neg (show ¬ (9728 ≤ a ∧ a < 9728 + (k + 1) * 64) by omega)]

/-- The 8x8 pass leaves the bytes from offset 2048 on alone. -/
theorem rotate8x8_high (ucFont ucTemp : Nat → Nat) (a : Nat) (ha : 2048 ≤ a) :
    (rotate8x8 (ucFont, ucTemp)).1 a = ucFont a := by
  unfold rotate8x8
  rw [rotate8x8_firstGlyphs, if_neg (by omega)]

/-- Byte `m` of large glyph `i` after `RotateFont90`. -/
theorem RotateFont90_large_byte (ucFont : Nat → Nat) (i m : Nat) (hi : i < 128) (hm : m < 64) :
    RotateFont90 ucFont (9728 + i * 64 + m) = rotatedLargeByte ucFont i m := by
  have hp : rotate8x8 (ucFont, fun _ => 0)
      = ((rotate8x8 (ucFont, fun _ => 0)).1, (rotate8x8 (ucFont, fun _ => 0)).2) :=
    Prod.mk.eta.symm
  unfold RotateFont90 rotate16x32
  rw [hp, rotate16x32_firstGlyphs, if_pos (by omega)]
  have hq : (9728 + i * 64 + m - 9728) / 64 = i := by omega
  have hr : (9728 + i * 64 + m - 9728) % 64 = m := by omega
  rw [hq, hr]
  apply rotatedLargeByte_congr
  · intro a ha1 ha2
    exact rotate8x8_high ucFont _ a (by omega)
  · exact hm

/-- C16 (counterexample): the 16x32 pass does not rotate a strip from the bytes at
the strip's own offset.  In `probeFont` bit 7 of byte 0 of large glyph 0 is set, yet
bit 0 of output byte 0 of that glyph is clear: byte 0 of the glyph is never read.
And glyph 0 does not depend on its own 64 bytes only: `probeFont2` and the all-zero
table agree on them, but output byte 48 of glyph 0 is `04` for one and `00` for the
other, because byte 0 of glyph 1 is read. -/
theorem RotateFont90_large_reads_shifted :
    (probeFont (9728 + 64 * 0 + 16 * 0 + 2 * 0)).testBit (7 - 0) = true ∧
    (RotateFont90 probeFont (9728 + 64 * 0 + 16 * 0 + 0)).testBit 0 = false ∧
    (∀ a, 9728 ≤ a → a < 9728 + 64 → probeFont2 a = (fun _ => 0) a) ∧
    RotateFont90 probeFont2 (9728 + 48) = 0x04 ∧
    RotateFont90 (fun _ => 0) (9728 + 48) = 0x00 := by
  refine ⟨by decide, ?_, ?_, ?_, ?_⟩
  · rw [show 9728 + 64 * 0 + 16 * 0 + 0 = 9728 + 0 * 64 + 0 from rfl,
      RotateFont90_large_byte probeFont 0 0 (by norm_num) (by norm_num)]
    decide
  · intro a h1 h2
    unfold probeFont2
    rw [if_neg (by omega)]
  · rw [show 9728 + 48 = 9728 + 0 * 64 + 48 from rfl,
      RotateFont90_large_byte probeFont2 0 48 (by norm_num) (by norm_num)]
    decide
  · rw [show 9728 + 48 = 9728 + 0 * 64 + 48 from rfl,
      RotateFont90_large_byte (fun _ => 0) 0 48 (by norm_num) (by norm_num)]
    decide

/-- C16 (amended): for every font table, every large glyph `i < 128` and every
sub-block `j < 4`, with `d[0..15]` the output bytes at offset `9728 + 64 * i + 16 * j`
and `s[0..15]` the original bytes 12 further on, at `9728 + 12 + 64 * i + 16 * j`: for
all `k, x < 8`, bit `x` of `d[k]` is bit `7 - k` of `s[2 * x]` and bit `x` of `d[8 + k]`
is bit `7 - k` of `s[2 * x + 1]`.  The 64 output bytes of glyph `i` are a function of
the 64 original bytes at offsets `9728 + 64 * i + 12` to `9728 + 64 * i + 75` only. -/
theorem RotateFont90_glyph16 (ucFont : Nat → Nat) (i j : Nat) (hi : i < 128) (hj : j < 4) :
    (∀ k x, k < 8 → x < 8 →
      (RotateFont90 ucFont (9728 + 64 * i + 16 * j + k)).testBit x
        = (ucFont (9728 + 12 + 64 * i + 16 * j + 2 * x)).testBit (7 - k) ∧
      (RotateFont90 ucFont (9728 + 64 * i + 16 * j + 8 + k)).testBit x
        = (ucFont (9728 + 12 + 64 * i + 16 * j + 2 * x + 1)).testBit (7 - k)) ∧
    (∀ ucFont' : Nat → Nat,
      (∀ a, 9728 + 64 * i + 12 ≤ a → a < 9728 + 64 * i + 76 → ucFont' a = ucFont a) →
      ∀ m, m < 64 →
        RotateFont90 ucFont' (9728 + 64 * i + m) = RotateFont90 ucFont (9728 + 64 * i + m)) := by
  constructor
  · intro k x hk hx
    have e1 : 9728 + 64 * i + 16 * j + k = 9728 + i * 64 + (16 * j + k) := by omega
    have e2 : 9728 + 64 * i + 16 * j + 8 + k = 9728 + i * 64 + (16 * j + 8 + k) := by omega
    have q1 : (16 * j + k) / 16 = j := by omega
    have r1 : (16 * j + k) % 16 = k := by omega
    have q2 : (16 * j + 8 + k) / 16 = j := by omega
    have r2 : (16 * j + 8 + k) % 16 - 8 = k := by omega
    have a1 : 9728 + 12 + i * 64 + (j * 16 + x * 2) = 9728 + 12 + 64 * i + 16 * j + 2 * x := by
      omega
    have a2 : 9728 + 12 + i * 64 + (j * 16 + (x * 2 + 1))
        = 9728 + 12 + 64 * i + 16 * j + 2 * x + 1 := by omega
    constructor
    · rw [e1, RotateFont90_large_byte ucFont i _ hi (by omega)]
      unfold rotatedLargeByte
      rw [if_pos (by omega), q1, r1, rotateBits_testBit]
      simp only [hx, decide_True, Bool.true_and, a1]
    · rw [e2, RotateFont90_large_byte ucFont i _ hi (by omega)]
      unfold rotatedLargeByte
      rw [if_neg (by omega), q2, r2, rotateBits_testBit]
      simp only [hx, decide_True, Bool.true_and, a2]
  · intro ucFont' h m hm
    have e : 9728 + 64 * i + m = 9728 + i * 64 + m := by omega
    rw [e, RotateFont90_large_byte ucFont' i m hi hm, RotateFont90_large_byte ucFont i m hi hm]
    exact rotatedLargeByte_congr ucFont ucFont' i m
      (fun a h1 h2 => h a (by omega) (by omega)) hm

/-- Witness for C16 (amended): glyph 0, sub-block 3 of `probeFont2`, whose output
byte 0 has bit 2 set from bit 7 of the source byte `s[4]`, which is byte 0 of
glyph 1. -/
theorem RotateFont90_glyph16_witness :
    (0 : Nat) < 128 ∧ (3 : Nat) < 4 ∧
    (RotateFont90 probeFont2 (9728 + 64 * 0 + 16 * 3 + 0)).testBit 2
      = (probeFont2 (9728 + 12 + 64 * 0 + 16 * 3 + 2 * 2)).testBit (7 - 0) :=
  ⟨by decide, by decide,
   ((RotateFont90_glyph16 probeFont2 0 3 (by decide) (by decide)).1 0 2 (by decide)
     (by decide)).1⟩

/-! ### Documented argument ranges of `oledWriteString` -/

/-- C13 (failing input): `x` is not taken as a pixel column.  On the open sample
session with an all-`ff` font, `oledWriteString(1, 0, "H", 0)` returns 0 but
repositions to column 8 (`B0 08 10`) and writes the glyph to shadow bytes 8..15:
shadow byte 1 stays `00` and shadow byte 8 becomes `ff`.  And
`oledWriteString(64, 0, "H", 0)`, the middle of the documented columns 0-127,
returns -1. -/
theorem oledWriteString_x_is_not_pixel_column :
    (oledWriteString okTransport sampleOpenFF 1 0 [0x48] 0).map
        (fun r => (r.2, r.1.ucScreen 1, r.1.ucScreen 8, r.1.calls)) =
      some (0, 0x00, 0xff,
        [Event.aioWriteI2C 3 0x00 [0xb0], Event.aioWriteI2C 3 0x00 [0x08],
         Event.aioWriteI2C 3 0x00 [0x10],
         Event.aioWriteI2C 3 0x40 [0xff, 0xff, 0xff, 0xff, 0xff, 0xff, 0xff, 0xff]]) ∧
    (oledWriteString okTransport sampleOpenFF 64 0 [0x48] 0).map (fun r => r.2)
      = some (-1) := by
  refine ⟨by decide, by decide⟩

/-- C19 (failing input): on the open sample session `oledWriteString(0, 7, "A", 1)`
(large font, row 7 of the documented rows 0 to 7) has no defined result.  The first
strip is copied to shadow offsets 896..911; the second strip is positioned on page
8, cursor `8 * 128 = 1024`, and its 16-byte copy would go to `ucScreen[1024..1039]`,
outside the 1024 bytes of `ucScreen`. -/
theorem oledWriteString_large_row7_out_of_bounds :
    (oledWriteString okTransport sampleOpen 0 7 [0x41] 1).isNone = true ∧
    (WriteData okTransport (oledSetPosition okTransport sampleOpen (0 * 16 + 0 * 16) 7)
      (readBytes sampleOpen.ucFont (9728 + 0x41 * 64) 16)).map
        (fun r => r.1.iScreenOffset) = some 912 ∧
    (oledSetPosition okTransport sampleOpen (0 * 16 + 0 * 16) (7 + 1)).iScreenOffset = 1024 ∧
    (WriteData okTransport (oledSetPosition okTransport sampleOpen (0 * 16 + 0 * 16) (7 + 1))
      (readBytes sampleOpen.ucFont (9728 + 0x41 * 64 + 16) 16)).isNone = true := by
  refine ⟨by decide, by decide, by decide, by decide⟩

/-! ### Operations that leave the glyph tables alone -/

theorem WriteData_ucFont (tp : Transport) (st : Driver) (pData : List Nat)
    (r : Driver × Int) (h : WriteData tp st pData = some r) : r.1.ucFont = st.ucFont := by
  by_cases hc : 0 ≤ st.iScreenOffset ∧ st.iScreenOffset + pData.length ≤ 1024
  · rw [WriteData_eq tp st pData hc.1 hc.2] at h
    cases h
    rfl
  · unfold WriteData at h
    rw [if_neg hc] at h
    cases h

theorem oledSetPosition_ucFont (tp : Transport) (st : Driver) (x y : Int) :
    (oledSetPosition tp st x y).ucFont = st.ucFont := by
  rw [oledSetPosition_eq]

/-- A loop whose every iteration keeps the font table keeps the font table. -/
theorem foldlM_ucFont (body : Driver → Nat → Option Driver)
    (hbody : ∀ s i s', body s i = some s' → s'.ucFont = s.ucFont) (l : List Nat) :
    ∀ (s s' : Driver), l.foldlM body s = some s' → s'.ucFont = s.ucFont := by
  induction l with
  | nil =>
    intro s s' h
    cases h
    rfl
  | cons i t ih =>
    intro s s' h
    rw [List.foldlM_cons] at h
    cases hb : body s i with
    | none => rw [hb] at h; cases h
    | some s1 =>
      rw [hb] at h
      rw [ih s1 s' h, hbody s i s1 hb]

/-- Only `oledInit` touches the glyph tables: whatever `oledShutdown`,
`oledSetContrast`, `oledFill`, `oledSetPixel` and `oledWriteString` do, the font
table afterwards is the font table before. -/
theorem others_keep_ucFont (tp : Transport) (st : Driver) :
    (oledShutdown tp st).ucFont = st.ucFont ∧
    (∀ c, (oledSetContrast tp st c).1.ucFont = st.ucFont) ∧
    (∀ p r, oledFill tp st p = some r → r.1.ucFont = st.ucFont) ∧
    (∀ x y c r, oledSetPixel tp st x y c = some r → r.1.ucFont = st.ucFont) ∧
    (∀ x y szMsg bLarge r, oledWriteString tp st x y szMsg bLarge = some r →
      r.1.ucFont = st.ucFont) := by
  refine ⟨oledShutdown_ucFont tp st, ?_, ?_, ?_, ?_⟩
  · intro c
    unfold oledSetContrast
    split
    · rfl
    · simp only [WriteCommand_fst]
  · intro p r h
    simp only [oledFill] at h
    split_ifs at h
    · cases h
      rfl
    · obtain ⟨s', hf, rfl⟩ := Option.map_eq_some'.mp h
      refine foldlM_ucFont _ ?_ _ st s' hf
      intro s i s1 hs
      obtain ⟨r1, hw, rfl⟩ := Option.map_eq_some'.mp hs
      rw [WriteData_ucFont tp _ _ r1 hw, oledSetPosition_ucFont]
  · intro x y c r h
    simp only [oledSetPixel] at h
    split_ifs at h
    · cases h
      rfl
    · cases h
      rfl
    · obtain ⟨r1, hw, rfl⟩ := Option.map_eq_some'.mp h
      simp only []
      rw [WriteData_ucFont tp _ _ r1 hw, oledSetPosition_ucFont]
    · cases h
      rfl
  · intro x y szMsg bLarge r h
    have hsmall : ∀ s i s', smallGlyph tp szMsg s i = some s' → s'.ucFont = s.ucFont := by
      intro s i s1 hs
      obtain ⟨r1, hw, rfl⟩ := Option.map_eq_some'.mp hs
      exact WriteData_ucFont tp _ _ r1 hw
    have hlarge : ∀ (xx yy : Int) s i s', largeGlyph tp xx yy szMsg s i = some s' →
        s'.ucFont = s.ucFont := by
      intro xx yy s i s1 hs
      simp only [largeGlyph] at hs
      obtain ⟨r1, hw1, hs⟩ := Option.bind_eq_some.mp hs
      obtain ⟨r2, hw2, hs⟩ := Option.bind_eq_some.mp hs
      obtain ⟨r3, hw3, rfl⟩ := Option.map_eq_some'.mp hs
      rw [WriteData_ucFont tp _ _ r3 hw3, oledSetPosition_ucFont,
        WriteData_ucFont tp _ _ r2 hw2, oledSetPosition_ucFont,
        WriteData_ucFont tp _ _ r1 hw1, oledSetPosition_ucFont]
    simp only [oledWriteString] at h
    split_ifs at h
    all_goals first
      | (cases h; first | rfl | exact oledSetPosition_ucFont tp st _ _)
      | (obtain ⟨s', hf, rfl⟩ := Option.map_eq_some'.mp h
         first
           | exact foldlM_ucFont _ (hlarge _ _) _ st s' hf
           | (simp only []
              rw [foldlM_ucFont _ hsmall _ _ s' hf, oledSetPosition_ucFont]))

end AioOled
